import Mathlib

/-!
Verification of the web_scrapper_module crawl/scrape pipeline.

URLs and file contents are modelled as lists of characters (`Str`).
The URL-parsing collaborator (CPython `urllib.parse`) is modelled
structurally: scheme / netloc / path / params / query / fragment
splitting, bracket validation, and unparsing, following the CPython 3.11
implementation that the source calls, validated against that interpreter.
Three restrictions: the control-character preprocessing of `urlsplit` is
omitted (inputs are taken as already clean of leading C0 controls and of
tab, CR, LF), the extra host validation of `_check_bracketed_host` and
`_checknetloc` (bracketed or non-ASCII hosts only) is not modelled beyond
the classic lone-bracket check, and percent-encoding is modelled at the
ASCII level.
-/

deriving instance DecidableEq for Except

namespace WSM

/-- Character-list strings, the carrier for all modelled text. -/
abbrev Str := List Char

/-- Conversion from a Lean string literal to the character-list model. -/
def strL (s : String) : Str := s.data

/-- Split at the first occurrence of `c`: returns the prefix before it and,
when `c` occurs, the remainder after it. -/
def splitOnFirst (c : Char) : Str → Str × Option Str
  | [] => ([], none)
  | x :: xs =>
    if x = c then ([], some xs)
    else
      let r := splitOnFirst c xs
      (x :: r.1, r.2)

/-- Split at the last occurrence of `c` (`none` when absent):
`l = a ++ c :: b` with `c` not occurring in `b`. -/
def splitOnLast (c : Char) : Str → Option (Str × Str)
  | [] => none
  | x :: xs =>
    match splitOnLast c xs with
    | some (a, b) => some (x :: a, b)
    | none => if x = c then some ([], xs) else none

/-- Delimiters ending the netloc portion of a URL (CPython `_splitnetloc`). -/
def isNetlocDelim (c : Char) : Bool := c = '/' || c = '?' || c = '#'

/-- Take the netloc: the longest prefix free of `/`, `?`, `#`
(CPython `_splitnetloc` with start already consumed). -/
def splitNetloc : Str → Str × Str
  | [] => ([], [])
  | x :: xs =>
    if isNetlocDelim x then ([], x :: xs)
    else
      let r := splitNetloc xs
      (x :: r.1, r.2)

/-- `str.rstrip('/')`: drop trailing slashes. -/
def rstripSlash (l : Str) : Str := (l.reverse.dropWhile (fun c => c = '/')).reverse

/-- Characters allowed in a URL scheme (CPython `scheme_chars`). -/
def isSchemeChar (c : Char) : Bool :=
  c.isAlpha || c.isDigit || c = '+' || c = '-' || c = '.'

/-- Result of `urlsplit`: the five components. -/
structure SplitResult where
  scheme : Str
  netloc : Str
  path : Str
  query : Str
  fragment : Str
deriving DecidableEq, Repr

/-- Result of `urlparse`: the six components (params split out of the path). -/
structure ParseResult where
  scheme : Str
  netloc : Str
  path : Str
  params : Str
  query : Str
  fragment : Str
deriving DecidableEq, Repr

/-- Scheme detection of CPython `urlsplit`: the prefix before the first `:`
is a scheme when nonempty, starting with an ASCII letter and made of scheme
characters only; it is then lowercased.  Otherwise the default applies. -/
def splitScheme (defaultScheme url : Str) : Str × Str :=
  match splitOnFirst ':' url with
  | (pre, some rest) =>
    match pre with
    | [] => (defaultScheme, url)
    | c0 :: _ =>
      if c0.isAlpha && pre.all isSchemeChar then (pre.map Char.toLower, rest)
      else (defaultScheme, url)
  | (_, none) => (defaultScheme, url)

/-- Model of CPython `urllib.parse.urlsplit` (fragments allowed): scheme,
then netloc after a leading `//` with the bracket validity check
(raises `ValueError` on a lone `[` or `]`), then fragment at the first `#`,
then query at the first `?`. -/
def pyUrlsplit (defaultScheme url : Str) : Except Unit SplitResult :=
  let sp := splitScheme defaultScheme url
  let scheme := sp.1
  let nr : Str × Str :=
    match sp.2 with
    | '/' :: '/' :: r => splitNetloc r
    | r => ([], r)
  let netloc := nr.1
  if (netloc.contains '[' && !netloc.contains ']')
      || (netloc.contains ']' && !netloc.contains '[') then .error ()
  else
    let fr := splitOnFirst '#' nr.2
    let fragment := fr.2.getD []
    let qr := splitOnFirst '?' fr.1
    let query := qr.2.getD []
    .ok ⟨scheme, netloc, qr.1, query, fragment⟩

/-- Schemes for which `urlparse` splits params off the path
(CPython `uses_params`). -/
def usesParams (s : Str) : Bool :=
  s = [] || s = strL ("ftp") || s = strL ("hdl") || s = strL ("prospero")
    || s = strL ("http") || s = strL ("imap") || s = strL ("https")
    || s = strL ("shttp") || s = strL ("rtsp") || s = strL ("rtspu")
    || s = strL ("sip") || s = strL ("sips") || s = strL ("mms")
    || s = strL ("sftp") || s = strL ("tel")

/-- CPython `_splitparams`, called only when `;` occurs in the path:
split at the first `;` of the last path segment; no split when the last
segment has no `;`. -/
def pySplitparams (url : Str) : Str × Str :=
  match splitOnLast '/' url with
  | some (a, b) =>
    match splitOnFirst ';' b with
    | (pre, some post) => (a ++ '/' :: pre, post)
    | (_, none) => (url, [])
  | none =>
    match splitOnFirst ';' url with
    | (pre, some post) => (pre, post)
    | (_, none) => (url, [])

/-- Model of CPython `urllib.parse.urlparse`. -/
def pyUrlparse (defaultScheme url : Str) : Except Unit ParseResult :=
  match pyUrlsplit defaultScheme url with
  | .error e => .error e
  | .ok r =>
    if usesParams r.scheme && r.path.contains ';' then
      let pp := pySplitparams r.path
      .ok ⟨r.scheme, r.netloc, pp.1, pp.2, r.query, r.fragment⟩
    else
      .ok ⟨r.scheme, r.netloc, r.path, [], r.query, r.fragment⟩

/-- Schemes that use a network location (CPython `uses_netloc`). -/
def usesNetloc (s : Str) : Bool :=
  s = [] || s = strL ("ftp") || s = strL ("http") || s = strL ("gopher")
    || s = strL ("nntp") || s = strL ("telnet") || s = strL ("imap")
    || s = strL ("wais") || s = strL ("file") || s = strL ("mms")
    || s = strL ("https") || s = strL ("shttp") || s = strL ("snews")
    || s = strL ("prospero") || s = strL ("rtsp") || s = strL ("rtspu")
    || s = strL ("rsync") || s = strL ("svn") || s = strL ("svn+ssh")
    || s = strL ("sftp") || s = strL ("nfs") || s = strL ("git")
    || s = strL ("git+ssh") || s = strL ("ws") || s = strL ("wss")

/-- Model of CPython 3.11 `urllib.parse.urlunsplit`: the `//` marker is
emitted for a nonempty netloc, and for an empty netloc when the scheme
uses one and the path does not itself begin with `//`. -/
def pyUrlunsplit (scheme netloc path query fragment : Str) : Str :=
  let u1 :=
    if netloc ≠ []
        || (scheme ≠ [] && usesNetloc scheme && !(path.take 2 = strL ("//"))) then
      let p := if path ≠ [] && !(path.take 1 = strL ("/")) then '/' :: path else path
      strL ("//") ++ netloc ++ p
    else path
  let u2 := if scheme ≠ [] then scheme ++ ':' :: u1 else u1
  let u3 := if query ≠ [] then u2 ++ '?' :: query else u2
  if fragment ≠ [] then u3 ++ '#' :: fragment else u3

/-- Model of CPython `urllib.parse.urlunparse`. -/
def pyUrlunparse (p : ParseResult) : Str :=
  let u := if p.params ≠ [] then p.path ++ ';' :: p.params else p.path
  pyUrlunsplit p.scheme p.netloc u p.query p.fragment

/-- `Crawler.normalize_url` (src/src/crawler.py): parse, keep scheme,
netloc, params and query, strip trailing slashes from the path, drop the
fragment, and unparse.  Propagates the `ValueError` of `urlparse`. -/
def normalize_url (url : Str) : Except Unit Str :=
  match pyUrlparse [] url with
  | .error e => .error e
  | .ok p =>
    .ok (pyUrlunparse ⟨p.scheme, p.netloc, rstripSlash p.path, p.params, p.query, []⟩)

/-- `is_valid_url` (src/src/utils.py): scheme must be http or https, the
netloc must equal the session domain, and a netloc containing `[` while
neither starting with `[` nor ending with `]` is rejected; any
`ValueError` from parsing yields `false`. -/
def is_valid_url (url domain : Str) : Bool :=
  match pyUrlparse [] url with
  | .error _ => false
  | .ok p =>
    if !(p.scheme = strL ("http") || p.scheme = strL ("https")) then false
    else if p.netloc ≠ domain then false
    else if p.netloc.contains '['
        && !((strL ("[")).isPrefixOf p.netloc)
        && !((strL ("]")).isSuffixOf p.netloc) then false
    else true

/-- Python whitespace for `str.split` / `str.strip`. -/
def pyIsSpace (c : Char) : Bool :=
  c = ' ' || c = '\t' || c = '\n' || c = '\r' || c = '\x0b' || c = '\x0c'

/-- `str.split()` with no argument: maximal runs of non-whitespace. -/
def pySplitWs : Str → List Str
  | [] => []
  | c :: cs =>
    if pyIsSpace c then pySplitWs cs
    else
      match pySplitWs cs with
      | [] => [[c]]
      | w :: ws =>
        match cs with
        | [] => [[c]]
        | d :: _ => if pyIsSpace d then [c] :: w :: ws else (c :: w) :: ws

/-- Join pieces with a single separating character. -/
def joinWith (c : Char) : List Str → Str
  | [] => []
  | [w] => w
  | w :: ws => w ++ c :: joinWith c ws

/-- `clean_text` (src/src/utils.py): collapse all whitespace runs to single
spaces (empty input stays empty). -/
def clean_text (t : Str) : Str := joinWith ' ' (pySplitWs t)

/-- Schemes considered relative-capable by `urljoin` (CPython `uses_relative`). -/
def usesRelative (s : Str) : Bool :=
  s = [] || s = strL ("ftp") || s = strL ("http") || s = strL ("gopher")
    || s = strL ("nntp") || s = strL ("imap") || s = strL ("wais")
    || s = strL ("file") || s = strL ("https") || s = strL ("shttp")
    || s = strL ("mms") || s = strL ("prospero") || s = strL ("rtsp")
    || s = strL ("rtspu") || s = strL ("sftp") || s = strL ("svn")
    || s = strL ("svn+ssh") || s = strL ("ws") || s = strL ("wss")

/-- `str.split(c)`: split on every occurrence, keeping empty pieces. -/
def pySplitChar (c : Char) : Str → List Str
  | [] => [[]]
  | x :: xs =>
    if x = c then [] :: pySplitChar c xs
    else
      match pySplitChar c xs with
      | [] => [[x]]
      | w :: ws => (x :: w) :: ws

/-- `segments[1:-1] = filter(None, segments[1:-1])` of `urljoin`: drop empty
pieces except in first and last position. -/
def filterMiddle : List Str → List Str
  | [] => []
  | [x] => [x]
  | x :: xs => x :: (xs.dropLast.filter (fun s => s ≠ [])) ++ [xs.getLastD []]

/-- The `..`/`.` resolution loop of `urljoin`. -/
def resolveSegments : List Str → List Str → List Str
  | acc, [] => acc
  | acc, seg :: rest =>
    if seg = strL ("..") then resolveSegments acc.dropLast rest
    else if seg = strL (".") then resolveSegments acc rest
    else resolveSegments (acc ++ [seg]) rest

/-- Model of CPython `urllib.parse.urljoin`. -/
def pyUrljoin (base url : Str) : Except Unit Str :=
  if base = [] then .ok url
  else if url = [] then .ok base
  else
    match pyUrlparse [] base with
    | .error e => .error e
    | .ok b =>
      match pyUrlparse b.scheme url with
      | .error e => .error e
      | .ok u =>
        if u.scheme ≠ b.scheme || !usesRelative u.scheme then .ok url
        else
          let scheme := u.scheme
          if usesNetloc scheme && u.netloc ≠ [] then
            .ok (pyUrlunparse ⟨scheme, u.netloc, u.path, u.params, u.query, u.fragment⟩)
          else
            let netloc := if usesNetloc scheme then b.netloc else u.netloc
            if u.path = [] && u.params = [] then
              let query := if u.query = [] then b.query else u.query
              .ok (pyUrlunparse ⟨scheme, netloc, b.path, b.params, query, u.fragment⟩)
            else
              let baseParts0 := pySplitChar '/' b.path
              let baseParts :=
                if baseParts0.getLastD [] ≠ [] then baseParts0.dropLast else baseParts0
              let segments :=
                if u.path.take 1 = strL ("/") then pySplitChar '/' u.path
                else filterMiddle (baseParts ++ pySplitChar '/' u.path)
              let resolved0 := resolveSegments [] segments
              let resolved :=
                if segments.getLastD [] = strL (".") || segments.getLastD [] = strL ("..")
                then resolved0 ++ [[]] else resolved0
              let joined := joinWith '/' resolved
              let path := if joined = [] then strL ("/") else joined
              .ok (pyUrlunparse ⟨scheme, netloc, path, u.params, u.query, u.fragment⟩)

/-- Lowercase a modelled string (`str.lower`, ASCII fragment). -/
def strLower (s : Str) : Str := s.map Char.toLower

/-- `str.strip()` with no argument. -/
def pyStrip (s : Str) : Str := ((s.dropWhile pyIsSpace).reverse.dropWhile pyIsSpace).reverse

/-- Substring test, Python `a in b`. -/
def isSubstr (n : Str) : Str → Bool
  | [] => n.isEmpty
  | c :: t => n.isPrefixOf (c :: t) || isSubstr n t

/-- Characters never percent-encoded by `urllib.parse.quote`. -/
def quoteAlwaysSafe (c : Char) : Bool :=
  c.isAlpha || c.isDigit || c = '_' || c = '.' || c = '-' || c = '~'

/-- Uppercase hexadecimal digit. -/
def hexDigitUpper (n : Nat) : Char :=
  if n < 10 then Char.ofNat (48 + n) else Char.ofNat (55 + n)

/-- UTF-8 encoding of one character, as byte values. -/
def utf8Char (c : Char) : List Nat :=
  let n := c.toNat
  if n < 0x80 then [n]
  else if n < 0x800 then [0xC0 + n / 64, 0x80 + n % 64]
  else if n < 0x10000 then [0xE0 + n / 4096, 0x80 + (n / 64) % 64, 0x80 + n % 64]
  else [0xF0 + n / 262144, 0x80 + (n / 4096) % 64, 0x80 + (n / 64) % 64, 0x80 + n % 64]

/-- UTF-8 encoding of a modelled string (`str.encode()`). -/
def utf8Encode (s : Str) : List Nat := (s.map utf8Char).flatten

/-- Model of `urllib.parse.quote` with the given safe characters
(beyond the always-safe set): non-safe characters are UTF-8 encoded and
percent-escaped byte by byte. -/
def pyQuote (safe : Str) (s : Str) : Str :=
  (s.map (fun c =>
    if quoteAlwaysSafe c || safe.contains c then [c]
    else (utf8Char c).flatMap (fun b => ['%', hexDigitUpper (b / 16), hexDigitUpper (b % 16)]))).flatten

/-- Hexadecimal digit value, if any. -/
def hexVal? (c : Char) : Option Nat :=
  if '0' ≤ c && c ≤ '9' then some (c.toNat - 48)
  else if 'A' ≤ c && c ≤ 'F' then some (c.toNat - 55)
  else if 'a' ≤ c && c ≤ 'f' then some (c.toNat - 87)
  else none

/-- Model of `urllib.parse.unquote` at the ASCII level: `%XX` pairs are
decoded to the character with that code, malformed escapes are kept
verbatim (multi-byte UTF-8 recombination is not modelled; the sessions
under study only decode ASCII bytes). -/
def pyUnquote : Str → Str
  | [] => []
  | '%' :: h1 :: h2 :: rest =>
    match hexVal? h1, hexVal? h2 with
    | some a, some b => Char.ofNat (16 * a + b) :: pyUnquote rest
    | _, _ => '%' :: pyUnquote (h1 :: h2 :: rest)
  | c :: rest => c :: pyUnquote rest

/-- One allow/disallow line of a parsed robots.txt
(`urllib.robotparser.RuleLine`). -/
structure RuleLine where
  path : Str
  allowance : Bool
deriving DecidableEq, Repr

/-- One user-agent group of a parsed robots.txt (`urllib.robotparser.Entry`). -/
structure RobotsEntry where
  useragents : List Str
  rulelines : List RuleLine
deriving DecidableEq, Repr

/-- State of `urllib.robotparser.RobotFileParser`; `last_checked` is the
only time-derived field and only its zero/nonzero status is ever read. -/
structure RobotFileParser where
  entries : List RobotsEntry
  default_entry : Option RobotsEntry
  disallow_all : Bool
  allow_all : Bool
  last_checked : Nat
deriving DecidableEq, Repr

/-- A freshly constructed `RobotFileParser()`. -/
def freshRobots : RobotFileParser := ⟨[], none, false, false, 0⟩

/-- `RuleLine.__init__`: empty disallow means allow-all, the path is
re-unparsed and percent-quoted; parse errors propagate as in CPython. -/
def mkRuleLine (path : Str) (allowance : Bool) : Except Unit RuleLine :=
  let allowance := if path = [] && !allowance then true else allowance
  match pyUrlparse [] path with
  | .error e => .error e
  | .ok p => .ok ⟨pyQuote (strL ("/")) (pyUrlunparse p), allowance⟩

/-- `Entry.applies_to`: match the user agent (token before `/`, lowercased)
against the group's agents; `*` matches everything, otherwise substring. -/
def entryAppliesTo (e : RobotsEntry) (useragent : Str) : Bool :=
  let ua := strLower (splitOnFirst '/' useragent).1
  e.useragents.any (fun agent => agent = strL ("*") || isSubstr (strLower agent) ua)

/-- `Entry.allowance`: first matching rule line decides; default allow. -/
def entryAllowance (e : RobotsEntry) (filename : Str) : Bool :=
  match e.rulelines.find? (fun l => l.path = strL ("*") || l.path.isPrefixOf filename) with
  | some l => l.allowance
  | none => true

/-- `RobotFileParser.can_fetch`: the fallback short-circuits, then the
URL's path portion is normalized and matched against the entries.  A fresh
parser (with `last_checked` still zero) answers `False` for every URL. -/
def rfpCanFetch (p : RobotFileParser) (useragent url : Str) : Except Unit Bool :=
  if p.disallow_all then .ok false
  else if p.allow_all then .ok true
  else if p.last_checked = 0 then .ok false
  else
    match pyUrlparse [] (pyUnquote url) with
    | .error e => .error e
    | .ok pu =>
      let u0 := pyUrlunparse ⟨[], [], pu.path, pu.params, pu.query, pu.fragment⟩
      let u1 := pyQuote (strL ("/")) u0
      let filename := if u1 = [] then strL ("/") else u1
      match p.entries.find? (fun e => entryAppliesTo e useragent) with
      | some e => .ok (entryAllowance e filename)
      | none =>
        match p.default_entry with
        | some e => .ok (entryAllowance e filename)
        | none => .ok true

/-- `RobotFileParser._add_entry`. -/
def addEntry (p : RobotFileParser) (e : RobotsEntry) : RobotFileParser :=
  if e.useragents.contains (strL ("*")) then
    match p.default_entry with
    | none => { p with default_entry := some e }
    | some _ => p
  else { p with entries := p.entries ++ [e] }

/-- The line loop of `RobotFileParser.parse` (state 0: start, 1: saw
user-agent lines, 2: saw rule lines). -/
def robotsParseLines (p : RobotFileParser) (state : Nat) (entry : RobotsEntry) :
    List Str → Except Unit RobotFileParser
  | [] => .ok (if state = 2 then addEntry p entry else p)
  | line :: rest =>
    let pse : RobotFileParser × Nat × RobotsEntry :=
      if line = [] then
        if state = 1 then (p, 0, ⟨[], []⟩)
        else if state = 2 then (addEntry p entry, 0, ⟨[], []⟩)
        else (p, state, entry)
      else (p, state, entry)
    let p1 := pse.1
    let st1 := pse.2.1
    let en1 := pse.2.2
    let line2 := pyStrip (splitOnFirst '#' line).1
    if line2 = [] then robotsParseLines p1 st1 en1 rest
    else
      match splitOnFirst ':' line2 with
      | (key0, some val0) =>
        let key := strLower (pyStrip key0)
        let val := pyStrip val0
        if key = strL ("user-agent") then
          let pe := if st1 = 2 then (addEntry p1 en1, (⟨[], []⟩ : RobotsEntry)) else (p1, en1)
          robotsParseLines pe.1 1 ⟨pe.2.useragents ++ [val], pe.2.rulelines⟩ rest
        else if key = strL ("disallow") then
          if st1 ≠ 0 then
            match mkRuleLine val false with
            | .error e => .error e
            | .ok rl => robotsParseLines p1 2 ⟨en1.useragents, en1.rulelines ++ [rl]⟩ rest
          else robotsParseLines p1 st1 en1 rest
        else if key = strL ("allow") then
          if st1 ≠ 0 then
            match mkRuleLine val true with
            | .error e => .error e
            | .ok rl => robotsParseLines p1 2 ⟨en1.useragents, en1.rulelines ++ [rl]⟩ rest
          else robotsParseLines p1 st1 en1 rest
        else robotsParseLines p1 st1 en1 rest
      | (_, none) => robotsParseLines p1 st1 en1 rest

/-- `RobotFileParser.parse`: marks the policy as read (`modified`, so
`last_checked` becomes nonzero) and runs the line state machine. -/
def rfpParse (lines : List Str) : Except Unit RobotFileParser :=
  robotsParseLines { freshRobots with last_checked := 1 } 0 ⟨[], []⟩ lines

/-- `Crawler._init_robots_parser` (src/src/crawler.py): the robots.txt
response is `some (status, lines)` on an HTTP response and `none` on a
`RequestException`; only a 200 response is ever parsed, every other
outcome returns the freshly constructed parser unchanged. -/
def init_robots (resp : Option (Nat × List Str)) : Except Unit RobotFileParser :=
  match resp with
  | some (status, lines) => if status = 200 then rfpParse lines else .ok freshRobots
  | none => .ok freshRobots

/-- The document-query collaborator (BeautifulSoup): anchor hrefs in
document order, the title tag's cleaned string (`none` when no title tag),
the visible text after script/style removal, and img-tag src attributes. -/
structure Doc where
  hrefs : List Str
  title : Option Str
  text : Str
  imgs : List Str
deriving DecidableEq, Repr

/-- A successful (2xx) HTTP response: status, Content-Type header and the
parsed document of its body.  Failed attempts — network errors and the
non-2xx statuses that `raise_for_status` turns into exceptions — are the
`none` outcomes of the fetch oracle. -/
structure Response where
  status : Nat
  content_type : Str
  doc : Doc
deriving DecidableEq, Repr

/-- The triple `url, response, soup` yielded by `Crawler.crawl`. -/
structure FetchResult where
  url : Str
  response : Option Response
  soup : Option Doc
deriving DecidableEq, Repr

/-- The mutable state of `Crawler` (src/src/crawler.py).  `visited` is the
VisitedSet of canonical URLs (insertion order kept), `queue` the FIFO
frontier. -/
structure Crawler where
  domain : Str
  visited : List Str
  queue : List Str
  robots : RobotFileParser
  max_pages : Nat
  pages_crawled : Nat
  skipped_duplicates : Nat
deriving DecidableEq, Repr

/-- `Crawler.__init__`: domain from the seed's netloc, queue and VisitedSet
seeded with the normalized seed URL, robots policy initialised from the
robots.txt fetch outcome. -/
def mkCrawler (start_url : Str) (max_pages : Nat) (robotsResp : Option (Nat × List Str)) :
    Except Unit Crawler :=
  match pyUrlparse [] start_url with
  | .error e => .error e
  | .ok p =>
    match normalize_url start_url with
    | .error e => .error e
    | .ok n =>
      match init_robots robotsResp with
      | .error e => .error e
      | .ok rb => .ok ⟨p.netloc, [n], [n], rb, max_pages, 0, 0⟩

/-- `Crawler.can_fetch`: query the robots policy for agent `*`. -/
def Crawler.can_fetch (c : Crawler) (url : Str) : Except Unit Bool :=
  rfpCanFetch c.robots (strL ("*")) url

/-- The pseudo-scheme/fragment prefixes skipped by `get_links`. -/
def linkSkipped (href : Str) : Bool :=
  (strL ("javascript:")).isPrefixOf href || (strL ("mailto:")).isPrefixOf href
    || (strL ("tel:")).isPrefixOf href || (strL ("data:")).isPrefixOf href
    || (strL ("#")).isPrefixOf href

/-- One iteration of the href loop in `Crawler.get_links`: join, normalize,
validate, dedupe against the VisitedSet, check robots, then collect the
link and mark it visited.  A `ValueError` anywhere in the body is caught
and the href skipped. -/
def processHref (st : List Str × Crawler) (url href : Str) : List Str × Crawler :=
  let acc := st.1
  let c := st.2
  if linkSkipped href then (acc, c)
  else
    match pyUrljoin url href with
    | .error _ => (acc, c)
    | .ok full =>
      match normalize_url full with
      | .error _ => (acc, c)
      | .ok nfull =>
        if !is_valid_url full c.domain then (acc, c)
        else if c.visited.contains nfull then
          (acc, { c with skipped_duplicates := c.skipped_duplicates + 1 })
        else
          match c.can_fetch full with
          | .error _ => (acc, c)
          | .ok allowed =>
            if !allowed then (acc, c)
            else (acc ++ [full], { c with visited := c.visited ++ [nfull] })

/-- `Crawler.get_links`: fold the href loop over the document's anchors;
note that every returned link is already added to the VisitedSet here. -/
def get_links (c : Crawler) (url : Str) (doc : Doc) : List Str × Crawler :=
  doc.hrefs.foldl (fun st href => processHref st url href) ([], c)

/-- The link-queueing loop of `Crawler.crawl`: links whose canonical form
is not yet visited are enqueued and marked visited, the rest counted as
skipped duplicates.  The `normalize_url` call here is outside any
`try`, so its `ValueError` would propagate. -/
def enqueueLinks (c : Crawler) : List Str → Except Unit Crawler
  | [] => .ok c
  | link :: ls =>
    match normalize_url link with
    | .error e => .error e
    | .ok nlink =>
      if !c.visited.contains nlink then
        enqueueLinks { c with queue := c.queue ++ [link], visited := c.visited ++ [nlink] } ls
      else
        enqueueLinks { c with skipped_duplicates := c.skipped_duplicates + 1 } ls

/-- The 3-attempt retry loop of `Crawler.crawl`: the first successful
attempt wins; `none` after three failed attempts. -/
def fetchRetries (fetch : Str → Nat → Option Response) (url : Str) : Option Response :=
  match fetch url 0 with
  | some r => some r
  | none =>
    match fetch url 1 with
    | some r => some r
    | none => fetch url 2

/-- One iteration of the `while` loop of `Crawler.crawl` (`none` when the
loop terminates: empty queue or page budget reached): dequeue, defensively
mark visited, fetch with retries, extract and enqueue links on success,
and yield the FetchResult — the failure marker `url, None, None` after
three failed attempts. -/
def crawlStep (fetch : Str → Nat → Option Response) (c : Crawler) :
    Except Unit (Option (FetchResult × Crawler)) :=
  if c.queue = [] || c.max_pages ≤ c.pages_crawled then .ok none
  else
    match c.queue with
    | [] => .ok none
    | url :: rest =>
      match normalize_url url with
      | .error e => .error e
      | .ok nurl =>
        let c1 := { c with
          queue := rest,
          visited := if c.visited.contains nurl then c.visited else c.visited ++ [nurl] }
        match fetchRetries fetch url with
        | none => .ok (some (⟨url, none, none⟩, c1))
        | some resp =>
          let lc := get_links c1 url resp.doc
          match enqueueLinks lc.2 lc.1 with
          | .error e => .error e
          | .ok c3 =>
            .ok (some (⟨url, some resp, some resp.doc⟩,
              { c3 with pages_crawled := c3.pages_crawled + 1 }))

/-- `Crawler.crawl` unrolled: the list of FetchResults yielded by up to
`fuel` loop iterations, with the final crawler state. -/
def crawlList (fetch : Str → Nat → Option Response) :
    Nat → Crawler → Except Unit (List FetchResult × Crawler)
  | 0, c => .ok ([], c)
  | fuel + 1, c =>
    match crawlStep fetch c with
    | .error e => .error e
    | .ok none => .ok ([], c)
    | .ok (some (r, c')) =>
      match crawlList fetch fuel c' with
      | .error e => .error e
      | .ok (rs, c'') => .ok (r :: rs, c'')

/-- `posixpath.splitext` for URL paths: the extension starts at the last
dot of the last segment, unless all characters of the segment before it
are dots. -/
def pySplitext (p : Str) : Str × Str :=
  let basename := match splitOnLast '/' p with
    | some (_, b) => b
    | none => p
  match splitOnLast '.' basename with
  | some (a, b) =>
    if a.all (fun c => c = '.') then (p, [])
    else (p.take (p.length - (b.length + 1)), '.' :: b)
  | none => (p, [])

/-- Lowercase hexadecimal digit. -/
def hexDigitLower (n : Nat) : Char :=
  if n < 10 then Char.ofNat (48 + n) else Char.ofNat (87 + n)

/-- 32-bit truncation. -/
def m32 (n : Nat) : Nat := n % 4294967296

/-- 32-bit left rotation. -/
def rotl32 (x s : Nat) : Nat := m32 (x * 2 ^ s + x / 2 ^ (32 - s))

/-- The 64 MD5 sine constants. -/
def md5K : List Nat :=
  [0xd76aa478, 0xe8c7b756, 0x242070db, 0xc1bdceee,
   0xf57c0faf, 0x4787c62a, 0xa8304613, 0xfd469501,
   0x698098d8, 0x8b44f7af, 0xffff5bb1, 0x895cd7be,
   0x6b901122, 0xfd987193, 0xa679438e, 0x49b40821,
   0xf61e2562, 0xc040b340, 0x265e5a51, 0xe9b6c7aa,
   0xd62f105d, 0x02441453, 0xd8a1e681, 0xe7d3fbc8,
   0x21e1cde6, 0xc33707d6, 0xf4d50d87, 0x455a14ed,
   0xa9e3e905, 0xfcefa3f8, 0x676f02d9, 0x8d2a4c8a,
   0xfffa3942, 0x8771f681, 0x6d9d6122, 0xfde5380c,
   0xa4beea44, 0x4bdecfa9, 0xf6bb4b60, 0xbebfbc70,
   0x289b7ec6, 0xeaa127fa, 0xd4ef3085, 0x04881d05,
   0xd9d4d039, 0xe6db99e5, 0x1fa27cf8, 0xc4ac5665,
   0xf4292244, 0x432aff97, 0xab9423a7, 0xfc93a039,
   0x655b59c3, 0x8f0ccc92, 0xffeff47d, 0x85845dd1,
   0x6fa87e4f, 0xfe2ce6e0, 0xa3014314, 0x4e0811a1,
   0xf7537e82, 0xbd3af235, 0x2ad7d2bb, 0xeb86d391]

/-- The per-round MD5 shift amounts. -/
def md5S : List Nat :=
  [7, 12, 17, 22, 7, 12, 17, 22, 7, 12, 17, 22, 7, 12, 17, 22,
   5, 9, 14, 20, 5, 9, 14, 20, 5, 9, 14, 20, 5, 9, 14, 20,
   4, 11, 16, 23, 4, 11, 16, 23, 4, 11, 16, 23, 4, 11, 16, 23,
   6, 10, 15, 21, 6, 10, 15, 21, 6, 10, 15, 21, 6, 10, 15, 21]

/-- Bitwise complement on 32 bits. -/
def not32 (x : Nat) : Nat := 4294967295 - m32 x

/-- One MD5 operation (step `i` of a block). -/
def md5Op (m : List Nat) (st : Nat × Nat × Nat × Nat) (i : Nat) : Nat × Nat × Nat × Nat :=
  let a := st.1
  let b := st.2.1
  let c := st.2.2.1
  let d := st.2.2.2
  let f :=
    if i < 16 then Nat.lor (Nat.land b c) (Nat.land (not32 b) d)
    else if i < 32 then Nat.lor (Nat.land d b) (Nat.land (not32 d) c)
    else if i < 48 then Nat.xor b (Nat.xor c d)
    else Nat.xor c (Nat.lor b (not32 d))
  let g :=
    if i < 16 then i
    else if i < 32 then (5 * i + 1) % 16
    else if i < 48 then (3 * i + 5) % 16
    else (7 * i) % 16
  let tmp := m32 (f + a + (md5K.getD i 0) + m.getD g 0)
  let b' := m32 (b + rotl32 tmp (md5S.getD i 0))
  (d, b', b, c)

/-- Process one 64-byte MD5 block, given as sixteen little-endian words. -/
def md5Block (st : Nat × Nat × Nat × Nat) (m : List Nat) : Nat × Nat × Nat × Nat :=
  let r := (List.range 64).foldl (md5Op m) st
  (m32 (st.1 + r.1), m32 (st.2.1 + r.2.1), m32 (st.2.2.1 + r.2.2.1), m32 (st.2.2.2 + r.2.2.2))

/-- Bytes to little-endian 32-bit words (length a multiple of 4). -/
def leWords : List Nat → List Nat
  | b0 :: b1 :: b2 :: b3 :: rest => (b0 + 256 * b1 + 65536 * b2 + 16777216 * b3) :: leWords rest
  | _ => []

/-- Cut a list into chunks of sixteen words (the padded input is always a
multiple of sixteen words long). -/
def chunks16 : List Nat → List (List Nat)
  | a0 :: a1 :: a2 :: a3 :: a4 :: a5 :: a6 :: a7 ::
      a8 :: a9 :: a10 :: a11 :: a12 :: a13 :: a14 :: a15 :: rest =>
    [a0, a1, a2, a3, a4, a5, a6, a7, a8, a9, a10, a11, a12, a13, a14, a15] :: chunks16 rest
  | _ => []

/-- MD5 padding: `0x80`, zeros to 56 mod 64, the bit length in 8 bytes
little-endian. -/
def md5Pad (msg : List Nat) : List Nat :=
  let len := msg.length
  let padLen := (119 - len % 64) % 64 + 1
  let bitLen := 8 * len
  msg ++ 0x80 :: List.replicate (padLen - 1) 0
      ++ (List.range 8).map (fun i => bitLen / 256 ^ i % 256)

/-- Little-endian bytes of a 32-bit word. -/
def wordBytes (w : Nat) : List Nat := [w % 256, w / 256 % 256, w / 65536 % 256, w / 16777216 % 256]

/-- `hashlib.md5(msg).hexdigest()`: the 32 lowercase hex characters. -/
def md5Hexdigest (msg : List Nat) : Str :=
  let blocks := chunks16 (leWords (md5Pad msg))
  let st := blocks.foldl md5Block (0x67452301, 0xefcdab89, 0x98badcfe, 0x10325476)
  ((wordBytes st.1 ++ wordBytes st.2.1 ++ wordBytes st.2.2.1 ++ wordBytes st.2.2.2).map
    (fun b => [hexDigitLower (b / 16), hexDigitLower (b % 16)])).flatten

/-- The filename computed by `WebScraper.download_image`
(src/src/scrapper.py): MD5 hex digest of the image URL plus the original
extension of the URL path, defaulting to `.jpg`; the `urlparse` call can
raise a `ValueError`, which `download_image` does not catch. -/
def download_image_filename (img_url : Str) : Except Unit Str :=
  let img_hash := md5Hexdigest (utf8Encode img_url)
  match pyUrlparse [] img_url with
  | .error e => .error e
  | .ok p =>
    let ext0 := (pySplitext p.path).2
    let ext := if ext0 = [] then strL (".jpg") else ext0
    .ok (img_hash ++ ext)

/-- `WebScraper.download_image`: insufficient disk space aborts this image
(`none`), then up to three network attempts; the saved filename on
success, `none` after three failures. -/
def download_image (diskFreeOk : Bool) (netOk : Str → Nat → Bool) (img_url : Str) :
    Except Unit (Option Str) :=
  match download_image_filename img_url with
  | .error e => .error e
  | .ok fname =>
    if !diskFreeOk then .ok none
    else if netOk img_url 0 || netOk img_url 1 || netOk img_url 2 then .ok (some fname)
    else .ok none

/-- A scraped page entry as built by `scrape_page`. -/
structure ImageRecord where
  src : Str
  filename : Str
deriving DecidableEq, Repr

/-- One PageRecord: the dict `url, title, content, images`. -/
structure PageRecord where
  url : Str
  title : Str
  content : Str
  images : List ImageRecord
deriving DecidableEq, Repr

/-- The image loop of `scrape_page`: join each src against the page URL,
keep only same-domain images, download; failed downloads are skipped.
Errors (e.g. a `ValueError` from `urljoin`) propagate to the enclosing
`except Exception` of `scrape_page`. -/
def imagesOf (domain : Str) (diskFreeOk : Bool) (netOk : Str → Nat → Bool) (url : Str) :
    List Str → Except Unit (List ImageRecord)
  | [] => .ok []
  | src :: rest =>
    match pyUrljoin url src with
    | .error e => .error e
    | .ok img_url =>
      if is_valid_url img_url domain then
        match download_image diskFreeOk netOk img_url with
        | .error e => .error e
        | .ok (some fname) =>
          match imagesOf domain diskFreeOk netOk url rest with
          | .error e => .error e
          | .ok imgs => .ok (⟨img_url, fname⟩ :: imgs)
        | .ok none => imagesOf domain diskFreeOk netOk url rest
      else imagesOf domain diskFreeOk netOk url rest

/-- `WebScraper.scrape_page` (src/src/scrapper.py): a FetchResult without
response or document yields no record; non-HTML content is skipped; the
title falls back to `No Title`; pages with no visible text are skipped;
otherwise the PageRecord with its downloaded images.  Any exception in
the scraping body is caught and yields `None`. -/
def scrape_page (domain : Str) (diskFreeOk : Bool) (netOk : Str → Nat → Bool)
    (fr : FetchResult) : Option PageRecord :=
  match fr.response, fr.soup with
  | some resp, some soup =>
    if !isSubstr (strL ("text/html")) (strLower resp.content_type) then none
    else
      let title := match soup.title with
        | some t => clean_text t
        | none => strL ("No Title")
      let content := clean_text soup.text
      if pyStrip content = [] then none
      else
        match imagesOf domain diskFreeOk netOk fr.url soup.imgs with
        | .error _ => none
        | .ok images => some ⟨fr.url, title, content, images⟩
  | _, _ => none

/-- JSON values as the program produces and consumes them: the pages file
only ever holds strings, arrays and objects (numbers, booleans and null
never occur in a PageRecord and are not modelled). -/
inductive Json where
  | str : Str → Json
  | arr : List Json → Json
  | obj : List (Str × Json) → Json
deriving Repr

/-- JSON string escaping of `json.dump` with `ensure_ascii=False`:
quote, backslash and control characters only. -/
def escapeJChar (c : Char) : Str :=
  if c = '"' then ['\\', '"']
  else if c = '\\' then ['\\', '\\']
  else if c = '\x08' then ['\\', 'b']
  else if c = '\t' then ['\\', 't']
  else if c = '\n' then ['\\', 'n']
  else if c = '\x0c' then ['\\', 'f']
  else if c = '\r' then ['\\', 'r']
  else if c.toNat < 32 then
    ['\\', 'u', '0', '0', hexDigitLower (c.toNat / 16), hexDigitLower (c.toNat % 16)]
  else [c]

/-- A serialized JSON string with its quotes. -/
def printJStr (s : Str) : Str := '"' :: (s.map escapeJChar).flatten ++ ['"']

/-- Newline plus the four-spaces-per-level indent of `json.dump(indent=4)`. -/
def nlIndent (lvl : Nat) : Str := '\n' :: List.replicate (4 * lvl) ' '

/-- Serialization of one image dict, closing brace at indent `lvl`. -/
def printImage (lvl : Nat) (img : ImageRecord) : Str :=
  '\x7b' :: nlIndent (lvl + 1) ++ printJStr (strL ("src")) ++ ':' :: ' ' :: printJStr img.src
    ++ ',' :: nlIndent (lvl + 1) ++ printJStr (strL ("filename")) ++ ':' :: ' '
    :: printJStr img.filename ++ nlIndent lvl ++ ['\x7d']

/-- Second and later elements of a serialized image list. -/
def printImagesRest (lvl : Nat) : List ImageRecord → Str
  | [] => []
  | img :: rest => ',' :: nlIndent lvl ++ printImage lvl img ++ printImagesRest lvl rest

/-- Serialization of the image list of one page. -/
def printImages (lvl : Nat) : List ImageRecord → Str
  | [] => strL ("[]")
  | img :: rest =>
    '[' :: nlIndent (lvl + 1) ++ printImage (lvl + 1) img
      ++ printImagesRest (lvl + 1) rest ++ nlIndent lvl ++ [']']

/-- Serialization of one page dict (key order as `scrape_page` builds it). -/
def printPage (lvl : Nat) (pg : PageRecord) : Str :=
  '\x7b' :: nlIndent (lvl + 1) ++ printJStr (strL ("url")) ++ ':' :: ' ' :: printJStr pg.url
    ++ ',' :: nlIndent (lvl + 1) ++ printJStr (strL ("title")) ++ ':' :: ' ' :: printJStr pg.title
    ++ ',' :: nlIndent (lvl + 1) ++ printJStr (strL ("content")) ++ ':' :: ' '
    :: printJStr pg.content
    ++ ',' :: nlIndent (lvl + 1) ++ printJStr (strL ("images")) ++ ':' :: ' '
    :: printImages (lvl + 1) pg.images
    ++ nlIndent lvl ++ ['\x7d']

/-- Second and later elements of the serialized page list. -/
def printPagesRest : List PageRecord → Str
  | [] => []
  | pg :: rest => ',' :: nlIndent 1 ++ printPage 1 pg ++ printPagesRest rest

/-- `json.dump(self.data, f, ensure_ascii=False, indent=4)` on a list of
page dicts: the exact file content written by `save_to_json`. -/
def printPages : List PageRecord → Str
  | [] => strL ("[]")
  | pg :: rest =>
    '[' :: nlIndent 1 ++ printPage 1 pg ++ printPagesRest rest ++ nlIndent 0 ++ [']']

/-- The JSON value of one image dict. -/
def imageJson (img : ImageRecord) : Json :=
  .obj [(strL ("src"), .str img.src), (strL ("filename"), .str img.filename)]

/-- The JSON value of one page dict. -/
def pageJson (pg : PageRecord) : Json :=
  .obj [(strL ("url"), .str pg.url), (strL ("title"), .str pg.title),
    (strL ("content"), .str pg.content),
    (strL ("images"), .arr (pg.images.map imageJson))]

/-- The JSON value of the whole dataset. -/
def pagesJson (pgs : List PageRecord) : Json := .arr (pgs.map pageJson)

/-- JSON whitespace. -/
def isJsonWs (c : Char) : Bool := c = ' ' || c = '\t' || c = '\n' || c = '\r'

/-- Skip JSON whitespace. -/
def skipWs (s : Str) : Str := s.dropWhile isJsonWs

/-- The single-character escapes accepted after a backslash by the strict
`json.loads` scanner. -/
def unescChar? (e : Char) : Option Char :=
  if e = '"' then some '"'
  else if e = '\\' then some '\\'
  else if e = '/' then some '/'
  else if e = 'b' then some '\x08'
  else if e = 'f' then some '\x0c'
  else if e = 'n' then some '\n'
  else if e = 'r' then some '\r'
  else if e = 't' then some '\t'
  else none

/-- Parse a JSON string body after the opening quote (strict mode: raw
control characters are an error, as in `json.loads`; unknown escapes are
errors; `\uXXXX` takes four hex digits). -/
def parseJStrBody : Str → Except Unit (Str × Str)
  | [] => .error ()
  | c :: rest =>
    if c = '"' then .ok ([], rest)
    else if c = '\\' then
      match rest with
      | [] => .error ()
      | e :: rest2 =>
        if e = 'u' then
          match rest2 with
          | h1 :: h2 :: h3 :: h4 :: rest3 =>
            match hexVal? h1, hexVal? h2, hexVal? h3, hexVal? h4 with
            | some a, some b, some cc, some d =>
              match parseJStrBody rest3 with
              | .error er => .error er
              | .ok (s, r) => .ok (Char.ofNat (4096 * a + 256 * b + 16 * cc + d) :: s, r)
            | _, _, _, _ => .error ()
          | _ => .error ()
        else
          match unescChar? e with
          | some u =>
            match parseJStrBody rest2 with
            | .error er => .error er
            | .ok (s, r) => .ok (u :: s, r)
          | none => .error ()
    else if c.toNat < 32 then .error ()
    else
      match parseJStrBody rest with
      | .error er => .error er
      | .ok (s, r) => .ok (c :: s, r)

mutual

/-- Parse one JSON value (strings, arrays, objects), fuel-bounded. -/
def parseValue : Nat → Str → Except Unit (Json × Str)
  | 0, _ => .error ()
  | fuel + 1, s =>
    match skipWs s with
    | '"' :: rest =>
      match parseJStrBody rest with
      | .error e => .error e
      | .ok (str, r) => .ok (.str str, r)
    | '[' :: rest =>
      match skipWs rest with
      | ']' :: r => .ok (.arr [], r)
      | r =>
        match parseArrItems fuel r with
        | .error e => .error e
        | .ok (items, r2) => .ok (.arr items, r2)
    | '\x7b' :: rest =>
      match skipWs rest with
      | '\x7d' :: r => .ok (.obj [], r)
      | r =>
        match parseObjItems fuel r with
        | .error e => .error e
        | .ok (items, r2) => .ok (.obj items, r2)
    | _ => .error ()

/-- Parse the comma-separated items of a nonempty array up to `]`. -/
def parseArrItems : Nat → Str → Except Unit (List Json × Str)
  | 0, _ => .error ()
  | fuel + 1, s =>
    match parseValue fuel s with
    | .error e => .error e
    | .ok (v, r) =>
      match skipWs r with
      | ',' :: r2 =>
        match parseArrItems fuel r2 with
        | .error e => .error e
        | .ok (vs, r3) => .ok (v :: vs, r3)
      | ']' :: r2 => .ok ([v], r2)
      | _ => .error ()

/-- Parse the comma-separated pairs of a nonempty object up to the
closing brace. -/
def parseObjItems : Nat → Str → Except Unit (List (Str × Json) × Str)
  | 0, _ => .error ()
  | fuel + 1, s =>
    match skipWs s with
    | '"' :: rest =>
      match parseJStrBody rest with
      | .error e => .error e
      | .ok (key, r) =>
        match skipWs r with
        | ':' :: r2 =>
          match parseValue fuel r2 with
          | .error e => .error e
          | .ok (v, r3) =>
            match skipWs r3 with
            | ',' :: r4 =>
              match parseObjItems fuel r4 with
              | .error e => .error e
              | .ok (kvs, r5) => .ok ((key, v) :: kvs, r5)
            | '\x7d' :: r4 => .ok ([(key, v)], r4)
            | _ => .error ()
        | _ => .error ()
    | _ => .error ()

end

/-- `json.load`: parse one value, then only whitespace may remain. -/
def loads (s : Str) : Except Unit Json :=
  match parseValue (s.length + 1) s with
  | .error e => .error e
  | .ok (v, rest) => if skipWs rest = [] then .ok v else .error ()

/-- The durable artifacts touched by persistence: the JSON file, the
temporary file used for atomic replacement, and the free bytes reported
by `statvfs` for the output directory. -/
structure FS where
  dataFile : Option Str
  tempFile : Option Str
  freeBytes : Nat
deriving DecidableEq, Repr

/-- `WebScraper.save_to_json` (src/src/scrapper.py): an empty dataset
returns at once without touching any file; insufficient disk space (under
1MB) also returns without writing; otherwise the serialized dataset is
written to the temporary file which then atomically replaces the durable
file. -/
def save_to_json (data : List PageRecord) (fs : FS) : FS :=
  if data = [] then fs
  else if fs.freeBytes < 1048576 then fs
  else { fs with tempFile := none, dataFile := some (printPages data) }

/-- `WebScraper.load_existing_data` (src/src/scrapper.py): an absent file
starts empty; a file whose stripped content is empty is logged and treated
as the empty list; a `json.JSONDecodeError` is logged and yields the empty
list; otherwise the parsed value becomes the dataset. -/
def load_existing_data (file : Option Str) : Json :=
  match file with
  | none => .arr []
  | some content =>
    if pyStrip content = [] then .arr []
    else
      match loads content with
      | .ok v => v
      | .error _ => .arr []

/-- Reading one image dict back into an ImageRecord (the spec's view of
"same src and filename"). -/
def jsonToImage : Json → Option ImageRecord
  | .obj [(k1, .str s), (k2, .str f)] =>
    if k1 = strL ("src") && k2 = strL ("filename") then some ⟨s, f⟩ else none
  | _ => none

/-- Reading one page dict back into a PageRecord (the spec's view of
"same url, title, content, and images"). -/
def jsonToPage : Json → Option PageRecord
  | .obj [(k1, .str u), (k2, .str t), (k3, .str c), (k4, .arr imgs)] =>
    if k1 = strL ("url") && k2 = strL ("title") && k3 = strL ("content")
        && k4 = strL ("images") then
      match imgs.mapM jsonToImage with
      | some irs => some ⟨u, t, c, irs⟩
      | none => none
    else none
  | _ => none

/-- Reading the whole dataset back. -/
def jsonToPages : Json → Option (List PageRecord)
  | .arr l => l.mapM jsonToPage
  | _ => none

/-- Fuel consumed by the parser along the printed page list. -/
def pagesFuelAux : List PageRecord → Nat
  | [] => 0
  | p :: ps => p.images.length + pagesFuelAux ps + 12

/-- Scenario seed URL `https://example.org/a`. -/
def seedA : Str := strL ("https://example.org/a")

/-- Scenario link target `https://example.org/b`. -/
def urlB : Str := strL ("https://example.org/b")

/-- The document of page `a`: anchors to the fragment variant of `a` and
to `b`. -/
def docA : Doc :=
  ⟨[strL ("https://example.org/a#frag"), urlB], some (strL ("A")), strL ("hello world"), []⟩

/-- A successful HTML response carrying `docA`. -/
def respA : Response := ⟨200, strL ("text/html"), docA⟩

/-- Fetch oracle for the scenario: page `a` succeeds, all else fails. -/
def fetchA : Str → Nat → Option Response := fun u _ => if u = seedA then some respA else none

/-- The robots state after parsing an empty robots.txt with status 200:
no entries, so every URL is allowed. -/
def robotsAllowAll : RobotFileParser := ⟨[], none, false, false, 1⟩

/-- The crawler as `__init__` leaves it for the scenario seed. -/
def crawlerA0 : Crawler := ⟨strL ("example.org"), [seedA], [seedA], robotsAllowAll, 100, 0, 0⟩

/-- A URL whose fetch fails on all attempts. -/
def urlF : Str := strL ("https://example.org/f")

/-- The document of page `b`, with no links. -/
def docB : Doc := ⟨[], some (strL ("B")), strL ("bee"), []⟩

/-- A successful HTML response carrying `docB`. -/
def respB : Response := ⟨200, strL ("text/html"), docB⟩

/-- Fetch oracle where only `b` succeeds. -/
def fetchC : Str → Nat → Option Response := fun u _ => if u = urlB then some respB else none

/-- A crawler state whose frontier holds the failing URL then `b`. -/
def crawlerC0 : Crawler :=
  ⟨strL ("example.org"), [urlF, urlB], [urlF, urlB], robotsAllowAll, 100, 0, 0⟩

/-- A concrete page record. -/
def pg0 : PageRecord := ⟨seedA, strL ("A"), strL ("hello world"), []⟩

/-- A file system whose durable file already holds the serialized `[pg0]`. -/
def fs1 : FS := ⟨some (printPages [pg0]), none, 10000000⟩

/-- A file system with no durable file and ample free space. -/
def fsEmpty : FS := ⟨none, none, 10000000⟩

/-- The condition the spec calls a malformed bracketed IPv6 literal
(section 4.1): a host containing `[` that neither starts with `[` nor
ends with `]`. -/
def malformedBracketHost (netloc : Str) : Bool :=
  netloc.contains '[' && !((strL ("[")).isPrefixOf netloc)
    && !((strL ("]")).isSuffixOf netloc)

example : pyUrljoin (strL ("https://example.org/a")) (strL ("https://example.org/b"))
    = .ok (strL ("https://example.org/b")) := by decide

example : pyUrljoin (strL ("https://example.org/a/b")) (strL ("../c"))
    = .ok (strL ("https://example.org/c")) := by decide

example : pyUrljoin (strL ("https://example.org/a/b")) (strL ("c?d=1"))
    = .ok (strL ("https://example.org/a/c?d=1")) := by decide

example : init_robots none = .ok freshRobots := by decide

example : rfpCanFetch freshRobots (strL ("*")) (strL ("https://example.org/a"))
    = .ok false := by decide

example : rfpParse [] = .ok ⟨[], none, false, false, 1⟩ := by decide

example : rfpCanFetch ⟨[], none, false, false, 1⟩ (strL ("*")) (strL ("https://example.org/a"))
    = .ok true := by decide

example :
    rfpParse [strL ("User-agent: *"), strL ("Disallow: /private")]
    = .ok ⟨[], some ⟨[strL ("*")], [⟨strL ("/private"), false⟩]⟩, false, false, 1⟩ := by
  decide

example : normalize_url (strL ("https://example.org/a#frag"))
    = .ok (strL ("https://example.org/a")) := by decide

example : normalize_url (strL ("https://example.org/a/"))
    = .ok (strL ("https://example.org/a")) := by decide

example : normalize_url (strL ("http://h/a;/")) = .ok (strL ("http://h/a;")) := by decide

example : normalize_url (strL ("http://h/a;")) = .ok (strL ("http://h/a")) := by decide

example : is_valid_url (strL ("https://example.org/b")) (strL ("example.org")) = true := by
  decide

example : is_valid_url (strL ("https://evil.com/b")) (strL ("example.org")) = false := by
  decide

example : is_valid_url (strL ("http://a[b]c/x")) (strL ("a[b]c")) = false := by decide

example : pyUrlparse [] (strL ("http://[::1/x")) = .error () := by decide

example : clean_text (strL ("  a   b\t\nc  ")) = strL ("a b c") := by decide

/-- C1: the spec's scenario theorem — seed `https://example.org/a`, page a
linking to `a#frag` and `b`, robots allowing all.  The claim's VisitedSet
half holds (canonical a and b are visited, the fragment variant is
deduplicated), but the code leaves the frontier queue EMPTY: `get_links`
already marks every returned link visited, so the enqueue loop in `crawl`
counts b as an already-queued duplicate and never queues it
(`skipped_duplicates` becomes 2). -/
theorem claim1_crawl_step_queue_empty :
    mkCrawler seedA 100 (some (200, [])) = .ok crawlerA0
    ∧ crawlStep fetchA crawlerA0
      = .ok (some (⟨seedA, some respA, some docA⟩,
        ⟨strL ("example.org"), [seedA, urlB], [], robotsAllowAll, 100, 1, 2⟩))
    ∧ normalize_url seedA = .ok seedA
    ∧ normalize_url (strL ("https://example.org/a#frag")) = .ok seedA
    ∧ normalize_url urlB = .ok urlB := by
  exact ⟨by decide, by decide, by decide, by decide, by decide⟩

/-- C2: when the robots.txt fetch fails (network error, i.e. `none`, or a
non-200 status), `_init_robots_parser` returns the untouched fresh parser —
whose `can_fetch` answers `False` for EVERY url, because `last_checked`
was never set.  The spec's fallback-allow state (and the code's own log
line "proceeding without restrictions") is therefore not what the code
does: the session is denied everything, not allowed everything. -/
theorem claim2_robots_failure_denies_all :
    ∀ resp url, (resp = none ∨ ∃ st lines, resp = some (st, lines) ∧ st ≠ 200) →
      init_robots resp = .ok freshRobots
      ∧ rfpCanFetch freshRobots (strL ("*")) url = .ok false := by
  intro resp url h
  refine ⟨?_, rfl⟩
  rcases h with h | ⟨st, lines, h, hst⟩
  · rw [h]; rfl
  · rw [h]; simp [init_robots, hst]

/-- Witness for C2 at the network-error outcome and a concrete URL. -/
theorem claim2_witness :
    init_robots none = .ok freshRobots
    ∧ rfpCanFetch freshRobots (strL ("*")) seedA = .ok false :=
  claim2_robots_failure_denies_all none seedA (Or.inl rfl)

/-- `is_valid_url` as one boolean expression over the parse outcome. -/
lemma is_valid_url_eq (url domain : Str) :
    is_valid_url url domain =
      match pyUrlparse [] url with
      | .error _ => false
      | .ok p =>
        (p.scheme = strL ("http") || p.scheme = strL ("https"))
          && decide (p.netloc = domain) && !malformedBracketHost p.netloc := by
  unfold is_valid_url malformedBracketHost
  cases pyUrlparse [] url with
  | error e => rfl
  | ok p =>
    by_cases h1 : (p.scheme = strL ("http") || p.scheme = strL ("https")) = true <;>
      by_cases h2 : p.netloc = domain <;>
        by_cases h3 : (p.netloc.contains '[' && !((strL ("[")).isPrefixOf p.netloc)
            && !((strL ("]")).isSuffixOf p.netloc)) = true <;>
          simp_all

/-- C4: `isValid(url, domain)` is true exactly when the URL parses, its
scheme is http or https, its netloc equals the session domain
(case-sensitive list equality), and the netloc is not a malformed
bracketed IPv6 literal in the spec's sense; in particular it is false
whenever the parsed netloc differs from the domain, and false whenever
parsing raises, so it never propagates an exception. -/
theorem claim4_is_valid_url_characterization :
    ∀ url domain,
      (is_valid_url url domain = true ↔
        ∃ p, pyUrlparse [] url = .ok p
          ∧ (p.scheme = strL ("http") ∨ p.scheme = strL ("https"))
          ∧ p.netloc = domain ∧ malformedBracketHost p.netloc = false)
      ∧ (∀ p, pyUrlparse [] url = .ok p → p.netloc ≠ domain →
          is_valid_url url domain = false)
      ∧ (pyUrlparse [] url = .error () → is_valid_url url domain = false) := by
  intro url domain
  rw [is_valid_url_eq]
  cases hp : pyUrlparse [] url with
  | error e =>
    cases e
    simp
  | ok p =>
    refine ⟨?_, ?_, ?_⟩
    · constructor
      · intro h
        simp only [Bool.and_eq_true, Bool.or_eq_true, decide_eq_true_eq,
          Bool.not_eq_true', decide_eq_true_iff] at h
        exact ⟨p, rfl, by simpa using h.1.1, h.1.2, h.2⟩
      · rintro ⟨q, hq, hsch, hdom, hmal⟩
        cases hq
        simp only [Bool.and_eq_true, Bool.or_eq_true, decide_eq_true_eq,
          Bool.not_eq_true']
        exact ⟨⟨by simpa using hsch, hdom⟩, hmal⟩
    · intro q hq hne
      cases hq
      simp [hne]
    · intro h
      cases h

/-- Witness for C4 at a cross-domain URL: the parse succeeds with netloc
`evil.com`, which differs from the session domain, so validation fails. -/
theorem claim4_witness :
    is_valid_url (strL ("https://evil.com/x")) (strL ("example.org")) = false :=
  (claim4_is_valid_url_characterization (strL ("https://evil.com/x"))
      (strL ("example.org"))).2.1
    ⟨strL ("https"), strL ("evil.com"), strL ("/x"), [], [], []⟩
    (by decide) (by decide)

/-- Unrolling one iteration of `crawlList`. -/
lemma crawlList_succ (fetch : Str → Nat → Option Response) (fuel : Nat) (c : Crawler) :
    crawlList fetch (fuel + 1) c =
      match crawlStep fetch c with
      | .error e => .error e
      | .ok none => .ok ([], c)
      | .ok (some (r, c')) =>
        (crawlList fetch fuel c').map (fun rc => (r :: rc.1, rc.2)) := by
  cases hs : crawlStep fetch c with
  | error e => simp [crawlList, hs]
  | ok o =>
    cases o with
    | none => simp [crawlList, hs]
    | some rc =>
      cases rc with
      | mk r c' =>
        simp only [crawlList, hs]
        cases h : crawlList fetch fuel c' with
        | error e => simp [Except.map]
        | ok x => simp [Except.map]

/-- C3: when all three fetch attempts for the queue head fail, the crawl
loop yields the failure marker `(url, None, None)` instead of raising;
`scrape_page` on that FetchResult produces no PageRecord for any session
parameters; and the crawl run continues: the remaining results are those
of the successor state whose queue is the rest of the frontier. -/
theorem claim3_fetch_failure_marker :
    ∀ fetch c url rest nurl domain diskOk netOk fuel,
      c.queue = url :: rest →
      c.pages_crawled < c.max_pages →
      fetch url 0 = none → fetch url 1 = none → fetch url 2 = none →
      normalize_url url = .ok nurl →
      crawlStep fetch c = .ok (some (⟨url, none, none⟩,
        { c with
          queue := rest,
          visited := if c.visited.contains nurl then c.visited
            else c.visited ++ [nurl] }))
      ∧ scrape_page domain diskOk netOk ⟨url, none, none⟩ = none
      ∧ crawlList fetch (fuel + 1) c
        = (crawlList fetch fuel
            { c with
              queue := rest,
              visited := if c.visited.contains nurl then c.visited
                else c.visited ++ [nurl] }).map
          (fun rc => (⟨url, none, none⟩ :: rc.1, rc.2)) := by
  intro fetch c url rest nurl domain diskOk netOk fuel hq hlt h0 h1 h2 hn
  have hnotle : ¬ c.max_pages ≤ c.pages_crawled := Nat.not_le.mpr hlt
  have hstep : crawlStep fetch c = .ok (some (⟨url, none, none⟩,
      { c with
        queue := rest,
        visited := if c.visited.contains nurl then c.visited
          else c.visited ++ [nurl] })) := by
    unfold crawlStep fetchRetries
    rw [hq]
    simp [hnotle, hn, h0, h1, h2]
  refine ⟨hstep, rfl, ?_⟩
  rw [crawlList_succ, hstep]

/-- Witness for C3: in a session whose frontier holds the always-failing
`urlF` and then `urlB`, the step yields the failure marker, scraping it
yields no record, and the run continues with `urlB` at the queue head. -/
theorem claim3_witness :
    crawlStep fetchC crawlerC0 = .ok (some (⟨urlF, none, none⟩,
      { crawlerC0 with
        queue := [urlB],
        visited := if crawlerC0.visited.contains urlF then crawlerC0.visited
          else crawlerC0.visited ++ [urlF] }))
    ∧ scrape_page (strL ("example.org")) true (fun _ _ => true) ⟨urlF, none, none⟩ = none
    ∧ crawlList fetchC 2 crawlerC0
      = (crawlList fetchC 1
          { crawlerC0 with
            queue := [urlB],
            visited := if crawlerC0.visited.contains urlF then crawlerC0.visited
              else crawlerC0.visited ++ [urlF] }).map
        (fun rc => (⟨urlF, none, none⟩ :: rc.1, rc.2)) :=
  claim3_fetch_failure_marker fetchC crawlerC0 urlF [urlB] urlF
    (strL ("example.org")) true (fun _ _ => true) 1
    rfl (by decide) (by decide) (by decide) (by decide) (by decide)

/-- C8: the local filename of a downloaded image is a pure function of the
absolute image URL — the MD5 hex digest of the URL's UTF-8 bytes followed
by the extension `posixpath.splitext` finds in the URL path, with `.jpg`
when there is none; and every successful `download_image`, whatever the
session's disk state and network oracle, saves under exactly that name. -/
theorem claim8_image_filename_deterministic :
    ∀ img_url p, pyUrlparse [] img_url = .ok p →
      download_image_filename img_url
        = .ok (md5Hexdigest (utf8Encode img_url)
            ++ (if (pySplitext p.path).2 = [] then strL (".jpg")
                else (pySplitext p.path).2))
      ∧ (∀ diskOk netOk fname,
          download_image diskOk netOk img_url = .ok (some fname) →
          fname = md5Hexdigest (utf8Encode img_url)
            ++ (if (pySplitext p.path).2 = [] then strL (".jpg")
                else (pySplitext p.path).2)) := by
  intro img_url p hp
  have h1 : download_image_filename img_url
      = .ok (md5Hexdigest (utf8Encode img_url)
          ++ (if (pySplitext p.path).2 = [] then strL (".jpg")
              else (pySplitext p.path).2)) := by
    unfold download_image_filename
    rw [hp]
  refine ⟨h1, ?_⟩
  intro diskOk netOk fname h
  unfold download_image at h
  rw [h1] at h
  dsimp only at h
  split_ifs at h <;> simp_all

/-- Witness for C8 at a concrete image URL with a `.png` extension. -/
theorem claim8_witness :
    download_image_filename (strL ("https://example.org/img.png"))
      = .ok (md5Hexdigest (utf8Encode (strL ("https://example.org/img.png")))
          ++ (if (pySplitext (strL ("/img.png"))).2 = [] then strL (".jpg")
              else (pySplitext (strL ("/img.png"))).2)) :=
  (claim8_image_filename_deterministic (strL ("https://example.org/img.png"))
    ⟨strL ("https"), strL ("example.org"), strL ("/img.png"), [], [], []⟩ (by decide)).1

/-- C9: loading the durable artifact never crashes the run (the model is a
total function): an absent file yields the empty dataset, a file whose
stripped content is empty yields the empty dataset, and any content that
`json.load` rejects yields the empty dataset. -/
theorem claim9_load_tolerates_absent_empty_corrupt :
    load_existing_data none = .arr []
    ∧ (∀ s, pyStrip s = [] → load_existing_data (some s) = .arr [])
    ∧ (∀ s, loads s = .error () → load_existing_data (some s) = .arr []) := by
  refine ⟨rfl, ?_, ?_⟩
  · intro s h
    simp [load_existing_data, h]
  · intro s h
    by_cases hs : pyStrip s = []
    · simp [load_existing_data, hs]
    · simp [load_existing_data, hs, h]

/-- Witness for C9: a whitespace-only file and a corrupt file. -/
theorem claim9_witness :
    load_existing_data (some (strL ("  "))) = .arr []
    ∧ load_existing_data (some (strL ("\x7b["))) = .arr [] :=
  ⟨claim9_load_tolerates_absent_empty_corrupt.2.1 _ (by decide),
   claim9_load_tolerates_absent_empty_corrupt.2.2 _ rfl⟩

/-- C10: `save_to_json` with an empty in-memory dataset returns before
touching anything: the durable file, the temporary file and the free-space
figure are all exactly as before. -/
theorem claim10_empty_save_is_noop : ∀ fs, save_to_json [] fs = fs := by
  intro fs
  rfl

/-- `hexVal?` inverts the lowercase hex digit printer. -/
lemma hexVal_hexDigitLower (n : Nat) (h : n < 16) : hexVal? (hexDigitLower n) = some n := by
  interval_cases n <;> decide

/-- `skipWs` crosses an all-whitespace prefix. -/
lemma skipWs_append_of_ws (w x : Str) (hw : ∀ c ∈ w, isJsonWs c = true) :
    skipWs (w ++ x) = skipWs x := by
  induction w with
  | nil => rfl
  | cons c cs ih =>
    have hc := hw c (List.mem_cons_self c cs)
    simp only [List.cons_append, skipWs, List.dropWhile_cons, hc, if_true]
    exact ih fun d hd => hw d (List.mem_cons_of_mem c hd)

/-- The indentation emitted by the printer is whitespace. -/
lemma nlIndent_ws (lvl : Nat) : ∀ c ∈ nlIndent lvl, isJsonWs c = true := by
  intro c hc
  simp only [nlIndent, List.mem_cons, List.eq_of_mem_replicate] at hc
  rcases hc with h | h
  · subst h; rfl
  · rw [List.eq_of_mem_replicate h]; rfl

/-- `skipWs` crosses a printed newline-plus-indent. -/
lemma skipWs_nlIndent (lvl : Nat) (x : Str) : skipWs (nlIndent lvl ++ x) = skipWs x :=
  skipWs_append_of_ws _ _ (nlIndent_ws lvl)

/-- `skipWs` keeps a list with a non-whitespace head. -/
lemma skipWs_cons_neg (c : Char) (l : Str) (h : isJsonWs c = false) : skipWs (c :: l) = c :: l := by
  simp [skipWs, List.dropWhile_cons, h]

/-- Parsing the literal hex digit `0`. -/
lemma hexVal_zero : hexVal? '0' = some 0 := by decide

/-- The JSON string scanner inverts the escaping printer. -/
lemma parseJStrBody_print (s : Str) : ∀ rest,
    parseJStrBody ((s.map escapeJChar).flatten ++ '"' :: rest) = .ok (s, rest) := by
  induction s with
  | nil =>
    intro rest
    simp only [List.map_nil, List.flatten_nil, List.nil_append]
    unfold parseJStrBody
    simp
  | cons c s ih =>
    intro rest
    simp only [List.map_cons, List.flatten_cons, List.append_assoc]
    by_cases h1 : c = '"'
    · subst h1
      rw [show escapeJChar '\"' = ['\\', '\"'] from rfl]
      simp only [List.cons_append, List.nil_append]
      unfold parseJStrBody
      simp [unescChar?, ih]
    · by_cases h2 : c = '\\'
      · subst h2
        rw [show escapeJChar '\\' = ['\\', '\\'] from rfl]
        simp only [List.cons_append, List.nil_append]
        unfold parseJStrBody
        simp [unescChar?, ih]
      · by_cases h3 : c = '\x08'
        · subst h3
          rw [show escapeJChar '\x08' = ['\\', 'b'] from rfl]
          simp only [List.cons_append, List.nil_append]
          unfold parseJStrBody
          simp [unescChar?, ih]
        · by_cases h4 : c = '\t'
          · subst h4
            rw [show escapeJChar '\t' = ['\\', 't'] from rfl]
            simp only [List.cons_append, List.nil_append]
            unfold parseJStrBody
            simp [unescChar?, ih]
          · by_cases h5 : c = '\n'
            · subst h5
              rw [show escapeJChar '\n' = ['\\', 'n'] from rfl]
              simp only [List.cons_append, List.nil_append]
              unfold parseJStrBody
              simp [unescChar?, ih]
            · by_cases h6 : c = '\x0c'
              · subst h6
                rw [show escapeJChar '\x0c' = ['\\', 'f'] from rfl]
                simp only [List.cons_append, List.nil_append]
                unfold parseJStrBody
                simp [unescChar?, ih]
              · by_cases h7 : c = '\r'
                · subst h7
                  rw [show escapeJChar '\r' = ['\\', 'r'] from rfl]
                  simp only [List.cons_append, List.nil_append]
                  unfold parseJStrBody
                  simp [unescChar?, ih]
                · by_cases h8 : c.toNat < 32
                  · have hd : c.toNat / 16 < 16 := by omega
                    have hm : c.toNat % 16 < 16 := by omega
                    have harith : 16 * (c.toNat / 16) + c.toNat % 16 = c.toNat := by omega
                    simp only [escapeJChar, h1, h2, h3, h4, h5, h6, h7, h8,
                      if_false, ite_true, ite_false, if_pos, if_neg, not_false_iff,
                      List.cons_append, List.nil_append]
                    unfold parseJStrBody
                    simp [hexVal_zero, hexVal_hexDigitLower _ hd, hexVal_hexDigitLower _ hm,
                      harith, Char.ofNat_toNat, ih]
                  · simp only [escapeJChar, h1, h2, h3, h4, h5, h6, h7, h8,
                      if_false, ite_true, ite_false, if_neg, not_false_iff,
                      List.cons_append, List.nil_append]
                    unfold parseJStrBody
                    simp [h1, h2, h8, ih]

/-- Parsing a printed JSON string as a value. -/
lemma parseValue_print_str (f : Nat) (s rest : Str) :
    parseValue (f + 1) (printJStr s ++ rest) = .ok (.str s, rest) := by
  have h : printJStr s ++ rest = '"' :: ((s.map escapeJChar).flatten ++ '"' :: rest) := by
    simp [printJStr]
  rw [h]
  simp only [parseValue]
  rw [skipWs_cons_neg '\"' _ (by decide)]
  simp [parseJStrBody_print]

/-- A leading space does not change value parsing. -/
lemma parseValue_cons_space (g : Nat) (x : Str) :
    parseValue (g + 1) (' ' :: x) = parseValue (g + 1) x := by
  simp only [parseValue]
  rw [show (' ' :: x : Str) = [' '] ++ x from rfl, skipWs_append_of_ws _ x (by decide)]

/-- A printed newline-plus-indent does not change value parsing. -/
lemma parseValue_nlIndent (g lvl : Nat) (x : Str) :
    parseValue (g + 1) (nlIndent lvl ++ x) = parseValue (g + 1) x := by
  simp only [parseValue]
  rw [skipWs_append_of_ws _ x (nlIndent_ws lvl)]

/-- Parsing a printed key/value pair followed by a comma and more pairs. -/
lemma parseObjItems_print_more (g : Nat) (key vrest rmid r2 : Str) (vjson : Json)
    (out : List (Str × Json)) (rest : Str)
    (hv : parseValue g vrest = .ok (vjson, rmid))
    (hskip : skipWs rmid = ',' :: r2)
    (hrest : parseObjItems g r2 = .ok (out, rest)) :
    parseObjItems (g + 1) (printJStr key ++ ':' :: vrest)
      = .ok ((key, vjson) :: out, rest) := by
  simp only [parseObjItems]
  rw [show printJStr key ++ ':' :: vrest
      = '"' :: ((key.map escapeJChar).flatten ++ '"' :: ':' :: vrest) by simp [printJStr]]
  rw [skipWs_cons_neg '"' _ (by decide)]
  simp [isJsonWs, parseJStrBody_print, skipWs_cons_neg, hv, hskip, hrest]

/-- Parsing the final printed key/value pair of an object. -/
lemma parseObjItems_print_last (g : Nat) (key vrest rmid rest : Str) (vjson : Json)
    (hv : parseValue g vrest = .ok (vjson, rmid))
    (hskip : skipWs rmid = '\x7d' :: rest) :
    parseObjItems (g + 1) (printJStr key ++ ':' :: vrest) = .ok ([(key, vjson)], rest) := by
  simp only [parseObjItems]
  rw [show printJStr key ++ ':' :: vrest
      = '"' :: ((key.map escapeJChar).flatten ++ '"' :: ':' :: vrest) by simp [printJStr]]
  rw [skipWs_cons_neg '"' _ (by decide)]
  simp [isJsonWs, parseJStrBody_print, skipWs_cons_neg, hv, hskip]

/-- Parsing one array element followed by a comma and more elements. -/
lemma parseArrItems_print_more (g : Nat) (s rmid r2 rest : Str) (vjson : Json)
    (items : List Json)
    (hv : parseValue g s = .ok (vjson, rmid))
    (hskip : skipWs rmid = ',' :: r2)
    (hrest : parseArrItems g r2 = .ok (items, rest)) :
    parseArrItems (g + 1) s = .ok (vjson :: items, rest) := by
  simp only [parseArrItems]
  simp [hv, hskip, hrest]

/-- Parsing the final array element before the closing bracket. -/
lemma parseArrItems_print_last (g : Nat) (s rmid rest : Str) (vjson : Json)
    (hv : parseValue g s = .ok (vjson, rmid))
    (hskip : skipWs rmid = ']' :: rest) :
    parseArrItems (g + 1) s = .ok ([vjson], rest) := by
  simp only [parseArrItems]
  simp [hv, hskip]

/-- A printed newline-plus-indent does not change object-items parsing. -/
lemma parseObjItems_nlIndent (g lvl : Nat) (x : Str) :
    parseObjItems (g + 1) (nlIndent lvl ++ x) = parseObjItems (g + 1) x := by
  simp only [parseObjItems]
  rw [skipWs_append_of_ws _ x (nlIndent_ws lvl)]

/-- A printed newline-plus-indent does not change array-items parsing. -/
lemma parseArrItems_nlIndent (g lvl : Nat) (x : Str) :
    parseArrItems (g + 1 + 1) (nlIndent lvl ++ x) = parseArrItems (g + 1 + 1) x := by
  simp only [parseArrItems]
  rw [parseValue_nlIndent]

/-- Entering a printed nonempty object as a value. -/
lemma parseValue_print_obj (g lvl : Nat) (key vrest2 : Str) (items : List (Str × Json))
    (rest2 : Str)
    (h : parseObjItems g (printJStr key ++ ':' :: vrest2) = .ok (items, rest2)) :
    parseValue (g + 1) ('\x7b' :: (nlIndent lvl ++ (printJStr key ++ ':' :: vrest2)))
      = .ok (.obj items, rest2) := by
  rw [show printJStr key ++ ':' :: vrest2
      = '"' :: ((key.map escapeJChar).flatten ++ '"' :: ':' :: vrest2) by
    simp [printJStr]] at h ⊢
  simp only [parseValue]
  rw [skipWs_cons_neg '\x7b' _ (by decide)]
  simp [skipWs_nlIndent, skipWs_cons_neg, isJsonWs, h]

/-- Entering a printed nonempty array as a value (the first element is an
object, so the element list starts with an opening brace). -/
lemma parseValue_print_arr (g lvl : Nat) (M : Str) (items : List Json) (rest2 : Str)
    (hM : M.head? = some '\x7b')
    (h : parseArrItems g M = .ok (items, rest2)) :
    parseValue (g + 1) ('[' :: (nlIndent lvl ++ M)) = .ok (.arr items, rest2) := by
  cases M with
  | nil => simp at hM
  | cons c T =>
    simp only [List.head?_cons, Option.some.injEq] at hM
    subst hM
    simp only [parseValue]
    rw [skipWs_cons_neg '[' _ (by decide)]
    simp [skipWs_nlIndent, skipWs_cons_neg, isJsonWs, h]

/-- Entering a printed empty array as a value. -/
lemma parseValue_print_arr_empty (g : Nat) (x : Str) :
    parseValue (g + 1) ('[' :: ']' :: x) = .ok (.arr [], x) := by
  simp only [parseValue]
  rw [skipWs_cons_neg '[' _ (by decide)]
  simp [skipWs_cons_neg, isJsonWs]

/-- Parsing a printed image object as a value. -/
lemma parseValue_print_image (f lvl : Nat) (img : ImageRecord) (rest : Str) :
    parseValue (f + 1 + 1 + 1 + 1) (printImage lvl img ++ rest)
      = .ok (imageJson img, rest) := by
  have hlast : parseObjItems (f + 1 + 1)
      (printJStr (strL ("filename")) ++ ':' :: (' ' :: (printJStr img.filename
        ++ (nlIndent lvl ++ '\x7d' :: rest))))
      = .ok ([(strL ("filename"), .str img.filename)], rest) := by
    apply parseObjItems_print_last (f + 1)
    · rw [parseValue_cons_space]
      exact parseValue_print_str f img.filename _
    · rw [skipWs_nlIndent]
      exact skipWs_cons_neg '\x7d' _ (by decide)
  have hobj : parseObjItems (f + 1 + 1 + 1)
      (printJStr (strL ("src")) ++ ':' :: (' ' :: (printJStr img.src
        ++ ',' :: (nlIndent (lvl + 1) ++ (printJStr (strL ("filename")) ++ ':'
          :: (' ' :: (printJStr img.filename ++ (nlIndent lvl ++ '\x7d' :: rest))))))))
      = .ok ([(strL ("src"), .str img.src), (strL ("filename"), .str img.filename)],
          rest) := by
    apply parseObjItems_print_more (f + 1 + 1)
    · rw [parseValue_cons_space]
      exact parseValue_print_str (f + 1) img.src _
    · exact skipWs_cons_neg ',' _ (by decide)
    · rw [parseObjItems_nlIndent]
      exact hlast
  have e1 : printImage lvl img ++ rest
      = '\x7b' :: (nlIndent (lvl + 1) ++ (printJStr (strL ("src")) ++ ':'
          :: (' ' :: (printJStr img.src ++ ',' :: (nlIndent (lvl + 1)
            ++ (printJStr (strL ("filename")) ++ ':' :: (' ' :: (printJStr img.filename
              ++ (nlIndent lvl ++ '\x7d' :: rest))))))))) := by
    simp [printImage]
  rw [e1]
  have h2 := parseValue_print_obj (f + 1 + 1 + 1) (lvl + 1) (strL ("src")) _ _ _ hobj
  simpa [imageJson] using h2

/-- Parsing the printed elements of a nonempty image array. -/
lemma parseArrItems_print_images (imgs : List ImageRecord) :
    ∀ (img : ImageRecord) (lvl f : Nat) (tail rest : Str),
      skipWs tail = ']' :: rest →
      parseArrItems (imgs.length + f + 1 + 1 + 1 + 1 + 1)
          (printImage lvl img ++ (printImagesRest lvl imgs ++ tail))
        = .ok ((img :: imgs).map imageJson, rest) := by
  induction imgs with
  | nil =>
    intro img lvl f tail rest htail
    apply parseArrItems_print_last (0 + f + 1 + 1 + 1 + 1)
    · have := parseValue_print_image (0 + f) lvl img tail
      simpa using this
    · exact htail
  | cons y ys ih =>
    intro img lvl f tail rest htail
    have hfuel : (y :: ys).length + f + 1 + 1 + 1 + 1 + 1
        = (ys.length + f + 1 + 1 + 1 + 1 + 1) + 1 := by
      rw [List.length_cons]
      omega
    rw [hfuel]
    apply parseArrItems_print_more (ys.length + f + 1 + 1 + 1 + 1 + 1)
    · have hfe : ys.length + f + 1 + 1 + 1 + 1 + 1
          = (ys.length + f + 1) + 1 + 1 + 1 + 1 := by omega
      rw [hfe]
      exact parseValue_print_image (ys.length + f + 1) lvl img _
    · rw [show printImagesRest lvl (y :: ys) ++ tail
          = ',' :: ((nlIndent lvl ++ (printImage lvl y ++ printImagesRest lvl ys)) ++ tail)
        by simp [printImagesRest]]
      exact skipWs_cons_neg ',' _ (by decide)
    · rw [List.append_assoc]
      have hfe2 : ys.length + f + 1 + 1 + 1 + 1 + 1
          = (ys.length + f + 1 + 1 + 1) + 1 + 1 := by omega
      rw [hfe2, parseArrItems_nlIndent, List.append_assoc]
      have hres := ih y lvl f tail rest htail
      rw [hfe2] at hres
      exact hres

/-- Parsing a printed image list as a value. -/
lemma parseValue_print_images (f lvl : Nat) (imgs : List ImageRecord) (rest : Str) :
    parseValue (imgs.length + f + 1 + 1 + 1 + 1 + 1 + 1) (printImages lvl imgs ++ rest)
      = .ok (.arr (imgs.map imageJson), rest) := by
  cases imgs with
  | nil =>
    have e0 : printImages lvl [] ++ rest = '[' :: ']' :: rest := by simp [printImages, strL]
    rw [e0]
    exact parseValue_print_arr_empty _ rest
  | cons x xs =>
    have e1 : printImages lvl (x :: xs) ++ rest
        = '[' :: (nlIndent (lvl + 1) ++ (printImage (lvl + 1) x
            ++ (printImagesRest (lvl + 1) xs ++ (nlIndent lvl ++ ']' :: rest)))) := by
      simp [printImages]
    rw [e1]
    have hfuel : (x :: xs).length + f + 1 + 1 + 1 + 1 + 1 + 1
        = (xs.length + (f + 1) + 1 + 1 + 1 + 1 + 1) + 1 := by
      rw [List.length_cons]
      omega
    rw [hfuel]
    refine parseValue_print_arr _ (lvl + 1) _ _ _ (by simp [printImage]) ?_
    have hs : skipWs (nlIndent lvl ++ ']' :: rest) = ']' :: rest := by
      rw [skipWs_nlIndent]
      exact skipWs_cons_neg ']' _ (by decide)
    exact parseArrItems_print_images xs x (lvl + 1) (f + 1) _ rest hs

/-- Parsing a printed page object as a value. -/
lemma parseValue_print_page (f lvl : Nat) (pg : PageRecord) (rest : Str) :
    parseValue (pg.images.length + f + 1 + 1 + 1 + 1 + 1 + 1 + 1 + 1 + 1 + 1 + 1)
        (printPage lvl pg ++ rest)
      = .ok (pageJson pg, rest) := by
  have h4 : parseObjItems (pg.images.length + f + 1 + 1 + 1 + 1 + 1 + 1 + 1)
      (printJStr (strL ("images")) ++ ':' :: (' ' :: (printImages (lvl + 1) pg.images
        ++ (nlIndent lvl ++ '\x7d' :: rest))))
      = .ok ([(strL ("images"), .arr (pg.images.map imageJson))], rest) := by
    apply parseObjItems_print_last (pg.images.length + f + 1 + 1 + 1 + 1 + 1 + 1)
    · rw [parseValue_cons_space]
      exact parseValue_print_images f (lvl + 1) pg.images _
    · rw [skipWs_nlIndent]
      exact skipWs_cons_neg '\x7d' _ (by decide)
  have h3 : parseObjItems (pg.images.length + f + 1 + 1 + 1 + 1 + 1 + 1 + 1 + 1)
      (printJStr (strL ("content")) ++ ':' :: (' ' :: (printJStr pg.content
        ++ ',' :: (nlIndent (lvl + 1) ++ (printJStr (strL ("images")) ++ ':'
          :: (' ' :: (printImages (lvl + 1) pg.images
            ++ (nlIndent lvl ++ '\x7d' :: rest))))))))
      = .ok ([(strL ("content"), .str pg.content),
          (strL ("images"), .arr (pg.images.map imageJson))], rest) := by
    apply parseObjItems_print_more (pg.images.length + f + 1 + 1 + 1 + 1 + 1 + 1 + 1)
    · rw [parseValue_cons_space]
      exact parseValue_print_str _ pg.content _
    · exact skipWs_cons_neg ',' _ (by decide)
    · rw [parseObjItems_nlIndent]
      exact h4
  have h2 : parseObjItems (pg.images.length + f + 1 + 1 + 1 + 1 + 1 + 1 + 1 + 1 + 1)
      (printJStr (strL ("title")) ++ ':' :: (' ' :: (printJStr pg.title
        ++ ',' :: (nlIndent (lvl + 1) ++ (printJStr (strL ("content")) ++ ':'
          :: (' ' :: (printJStr pg.content
            ++ ',' :: (nlIndent (lvl + 1) ++ (printJStr (strL ("images")) ++ ':'
              :: (' ' :: (printImages (lvl + 1) pg.images
                ++ (nlIndent lvl ++ '\x7d' :: rest))))))))))))
      = .ok ([(strL ("title"), .str pg.title),
          (strL ("content"), .str pg.content),
          (strL ("images"), .arr (pg.images.map imageJson))], rest) := by
    apply parseObjItems_print_more (pg.images.length + f + 1 + 1 + 1 + 1 + 1 + 1 + 1 + 1)
    · rw [parseValue_cons_space]
      exact parseValue_print_str _ pg.title _
    · exact skipWs_cons_neg ',' _ (by decide)
    · rw [parseObjItems_nlIndent]
      exact h3
  have h1 : parseObjItems (pg.images.length + f + 1 + 1 + 1 + 1 + 1 + 1 + 1 + 1 + 1 + 1)
      (printJStr (strL ("url")) ++ ':' :: (' ' :: (printJStr pg.url
        ++ ',' :: (nlIndent (lvl + 1) ++ (printJStr (strL ("title")) ++ ':'
          :: (' ' :: (printJStr pg.title
            ++ ',' :: (nlIndent (lvl + 1) ++ (printJStr (strL ("content")) ++ ':'
              :: (' ' :: (printJStr pg.content
                ++ ',' :: (nlIndent (lvl + 1) ++ (printJStr (strL ("images")) ++ ':'
                  :: (' ' :: (printImages (lvl + 1) pg.images
                    ++ (nlIndent lvl ++ '\x7d' :: rest))))))))))))))))
      = .ok ([(strL ("url"), .str pg.url),
          (strL ("title"), .str pg.title),
          (strL ("content"), .str pg.content),
          (strL ("images"), .arr (pg.images.map imageJson))], rest) := by
    apply parseObjItems_print_more
      (pg.images.length + f + 1 + 1 + 1 + 1 + 1 + 1 + 1 + 1 + 1)
    · rw [parseValue_cons_space]
      exact parseValue_print_str _ pg.url _
    · exact skipWs_cons_neg ',' _ (by decide)
    · rw [parseObjItems_nlIndent]
      exact h2
  have e1 : printPage lvl pg ++ rest
      = '\x7b' :: (nlIndent (lvl + 1) ++ (printJStr (strL ("url")) ++ ':'
        :: (' ' :: (printJStr pg.url
          ++ ',' :: (nlIndent (lvl + 1) ++ (printJStr (strL ("title")) ++ ':'
            :: (' ' :: (printJStr pg.title
              ++ ',' :: (nlIndent (lvl + 1) ++ (printJStr (strL ("content")) ++ ':'
                :: (' ' :: (printJStr pg.content
                  ++ ',' :: (nlIndent (lvl + 1) ++ (printJStr (strL ("images")) ++ ':'
                    :: (' ' :: (printImages (lvl + 1) pg.images
                      ++ (nlIndent lvl ++ '\x7d' :: rest))))))))))))))))) := by
    simp [printPage]
  rw [e1]
  have hfin := parseValue_print_obj
    (pg.images.length + f + 1 + 1 + 1 + 1 + 1 + 1 + 1 + 1 + 1 + 1) (lvl + 1)
    (strL ("url")) _ _ _ h1
  simpa [pageJson] using hfin

/-- Parsing the printed elements of a nonempty page array. -/
lemma parseArrItems_print_pages (pgs : List PageRecord) :
    ∀ (pg : PageRecord) (f : Nat) (tail rest : Str),
      skipWs tail = ']' :: rest →
      parseArrItems (pagesFuelAux pgs + pg.images.length + f
          + 1 + 1 + 1 + 1 + 1 + 1 + 1 + 1 + 1 + 1 + 1 + 1)
          (printPage 1 pg ++ (printPagesRest pgs ++ tail))
        = .ok ((pg :: pgs).map pageJson, rest) := by
  induction pgs with
  | nil =>
    intro pg f tail rest htail
    rw [show pagesFuelAux ([] : List PageRecord) = 0 from rfl]
    apply parseArrItems_print_last
      (0 + pg.images.length + f + 1 + 1 + 1 + 1 + 1 + 1 + 1 + 1 + 1 + 1 + 1)
    · rw [show printPagesRest ([] : List PageRecord) ++ tail = tail by simp [printPagesRest]]
      have hc : 0 + pg.images.length + f + 1 + 1 + 1 + 1 + 1 + 1 + 1 + 1 + 1 + 1 + 1
          = pg.images.length + f + 1 + 1 + 1 + 1 + 1 + 1 + 1 + 1 + 1 + 1 + 1 := by omega
      rw [hc]
      exact parseValue_print_page f 1 pg tail
    · exact htail
  | cons y ys ih =>
    intro pg f tail rest htail
    rw [show pagesFuelAux (y :: ys) = y.images.length + pagesFuelAux ys + 12 from rfl]
    apply parseArrItems_print_more
      (y.images.length + pagesFuelAux ys + 12 + pg.images.length + f
        + 1 + 1 + 1 + 1 + 1 + 1 + 1 + 1 + 1 + 1 + 1)
    · have hc : y.images.length + pagesFuelAux ys + 12 + pg.images.length + f
          + 1 + 1 + 1 + 1 + 1 + 1 + 1 + 1 + 1 + 1 + 1
          = pg.images.length + (y.images.length + pagesFuelAux ys + f + 12)
            + 1 + 1 + 1 + 1 + 1 + 1 + 1 + 1 + 1 + 1 + 1 := by omega
      rw [hc]
      exact parseValue_print_page (y.images.length + pagesFuelAux ys + f + 12) 1 pg _
    · rw [show printPagesRest (y :: ys) ++ tail
          = ',' :: ((nlIndent 1 ++ (printPage 1 y ++ printPagesRest ys)) ++ tail)
        by simp [printPagesRest]]
      exact skipWs_cons_neg ',' _ (by decide)
    · rw [List.append_assoc]
      have hc2 : y.images.length + pagesFuelAux ys + 12 + pg.images.length + f
          + 1 + 1 + 1 + 1 + 1 + 1 + 1 + 1 + 1 + 1 + 1
          = (y.images.length + pagesFuelAux ys + 12 + pg.images.length + f
            + 1 + 1 + 1 + 1 + 1 + 1 + 1 + 1 + 1) + 1 + 1 := by omega
      rw [hc2, parseArrItems_nlIndent, List.append_assoc]
      have hres := ih y (pg.images.length + f + 11) tail rest htail
      have hc3 : pagesFuelAux ys + y.images.length + (pg.images.length + f + 11)
          + 1 + 1 + 1 + 1 + 1 + 1 + 1 + 1 + 1 + 1 + 1 + 1
          = (y.images.length + pagesFuelAux ys + 12 + pg.images.length + f
            + 1 + 1 + 1 + 1 + 1 + 1 + 1 + 1 + 1) + 1 + 1 := by omega
      rw [hc3] at hres
      exact hres

/-- Two characters bound the length of a printed JSON string from below. -/
lemma le_length_printJStr (s : Str) : 2 ≤ (printJStr s).length := by
  simp [printJStr]

/-- Each image contributes at least one character to the printed rest. -/
lemma le_length_printImagesRest (lvl : Nat) (l : List ImageRecord) :
    l.length ≤ (printImagesRest lvl l).length := by
  induction l with
  | nil => simp [printImagesRest]
  | cons x xs ih =>
    simp only [printImagesRest, List.length_cons, List.length_append]
    omega

/-- The printed image list is at least as long as the image count. -/
lemma le_length_printImages (lvl : Nat) (imgs : List ImageRecord) :
    imgs.length ≤ (printImages lvl imgs).length := by
  cases imgs with
  | nil => simp [printImages, strL]
  | cons x xs =>
    have hr := le_length_printImagesRest (lvl + 1) xs
    simp only [printImages, List.length_cons, List.length_append]
    omega

/-- The printed page is long enough for the parser fuel it needs. -/
lemma le_length_printPage (lvl : Nat) (pg : PageRecord) :
    pg.images.length + 12 ≤ (printPage lvl pg).length := by
  have b1 := le_length_printJStr (strL ("url"))
  have b2 := le_length_printJStr (strL ("title"))
  have b3 := le_length_printJStr (strL ("content"))
  have b4 := le_length_printJStr (strL ("images"))
  have b5 := le_length_printJStr pg.url
  have b6 := le_length_printJStr pg.title
  have b7 := le_length_printJStr pg.content
  have bi := le_length_printImages (lvl + 1) pg.images
  simp only [printPage, nlIndent, List.length_cons, List.length_append,
    List.length_replicate]
  omega

/-- The printed page rest is long enough for the fuel it needs. -/
lemma le_length_printPagesRest (pgs : List PageRecord) :
    pagesFuelAux pgs ≤ (printPagesRest pgs).length := by
  induction pgs with
  | nil => simp [pagesFuelAux, printPagesRest]
  | cons y ys ih =>
    have hp := le_length_printPage 1 y
    simp only [pagesFuelAux, printPagesRest, nlIndent, List.length_cons,
      List.length_append, List.length_replicate]
    omega

/-- The whole printed page list is long enough for the fuel it needs. -/
lemma pagesFuel_le_length (x : PageRecord) (xs : List PageRecord) :
    pagesFuelAux xs + x.images.length + 12 ≤ (printPages (x :: xs)).length := by
  have hp := le_length_printPage 1 x
  have hr := le_length_printPagesRest xs
  simp only [printPages, nlIndent, List.length_cons, List.length_append,
    List.length_replicate]
  omega

/-- `json.load` inverts `json.dump` on the program's page datasets. -/
lemma loads_printPages (ds : List PageRecord) :
    loads (printPages ds) = .ok (pagesJson ds) := by
  cases ds with
  | nil => rfl
  | cons x xs =>
    have hb := pagesFuel_le_length x xs
    obtain ⟨f, hf⟩ := Nat.exists_eq_add_of_le hb
    unfold loads
    rw [hf]
    have hc : pagesFuelAux xs + x.images.length + 12 + f
        = pagesFuelAux xs + x.images.length + f
          + 1 + 1 + 1 + 1 + 1 + 1 + 1 + 1 + 1 + 1 + 1 + 1 := by omega
    rw [hc]
    have e1 : printPages (x :: xs)
        = '[' :: (nlIndent 1 ++ (printPage 1 x
            ++ (printPagesRest xs ++ (nlIndent 0 ++ [']'])))) := by
      simp [printPages]
    rw [e1]
    have hs : skipWs (nlIndent 0 ++ [']']) = ']' :: ([] : Str) := by
      rw [skipWs_nlIndent]
      exact skipWs_cons_neg ']' _ (by decide)
    have harr := parseArrItems_print_pages xs x f (nlIndent 0 ++ [']']) [] hs
    have hval := parseValue_print_arr
      (pagesFuelAux xs + x.images.length + f + 1 + 1 + 1 + 1 + 1 + 1 + 1 + 1 + 1 + 1 + 1 + 1)
      1 _ _ _ (by simp [printPage]) harr
    rw [hval]
    simp [pagesJson, skipWs]

/-- Stripping a string that starts with a non-space leaves it nonempty. -/
lemma pyStrip_cons_ne_nil (c : Char) (t : Str) (hc : pyIsSpace c = false) :
    pyStrip (c :: t) ≠ [] := by
  intro h
  simp only [pyStrip, List.dropWhile_cons, hc, if_neg, Bool.false_eq_true,
    ite_false] at h
  rw [List.reverse_eq_nil_iff, List.dropWhile_eq_nil_iff] at h
  have := h c (by simp)
  simp [hc] at this

/-- Decoding inverts encoding for one image record. -/
lemma jsonToImage_imageJson (i : ImageRecord) : jsonToImage (imageJson i) = some i := rfl

/-- Decoding inverts encoding along a list of image records (loop form). -/
lemma mapM_loop_jsonToImage (l : List ImageRecord) :
    ∀ acc : List ImageRecord,
      List.mapM.loop jsonToImage (l.map imageJson) acc = some (acc.reverse ++ l) := by
  induction l with
  | nil => intro acc; simp [List.mapM.loop]
  | cons x xs ih =>
    intro acc
    simp only [List.map_cons, List.mapM.loop, jsonToImage_imageJson, Option.bind_eq_bind,
      Option.some_bind]
    rw [ih (x :: acc)]
    simp

/-- Decoding inverts encoding along a list of image records. -/
lemma mapM_jsonToImage (l : List ImageRecord) :
    (l.map imageJson).mapM jsonToImage = some l := by
  have h := mapM_loop_jsonToImage l []
  simpa [List.mapM] using h

/-- Decoding inverts encoding for one page record. -/
lemma jsonToPage_pageJson (p : PageRecord) : jsonToPage (pageJson p) = some p := by
  simp [pageJson, jsonToPage]
  rw [mapM_loop_jsonToImage p.images []]
  simp

/-- Decoding inverts encoding along a list of page records (loop form). -/
lemma mapM_loop_jsonToPage (l : List PageRecord) :
    ∀ acc : List PageRecord,
      List.mapM.loop jsonToPage (l.map pageJson) acc = some (acc.reverse ++ l) := by
  induction l with
  | nil => intro acc; simp [List.mapM.loop]
  | cons x xs ih =>
    intro acc
    simp only [List.map_cons, List.mapM.loop, jsonToPage_pageJson, Option.bind_eq_bind,
      Option.some_bind]
    rw [ih (x :: acc)]
    simp

/-- Decoding inverts encoding for a whole dataset. -/
lemma jsonToPages_pagesJson (ds : List PageRecord) :
    jsonToPages (pagesJson ds) = some ds := by
  have h := mapM_loop_jsonToPage ds []
  simp only [pagesJson, jsonToPages, List.mapM]
  simpa using h

/-- C5 (corrected): persistence round-trips for every NONEMPTY dataset
when at least 1MB of disk is free — saving writes the serialized pages to
the durable file, loading that file back yields exactly the serialized
dataset as a JSON value, and decoding that value recovers the very same
page records (same url, title, content and images, in order).  The
nonemptiness restriction is forced by the code: `save_to_json` returns
without writing when the dataset is empty, so an empty dataset does not
round-trip past a pre-existing durable file (see the counterexample). -/
theorem claim5_roundtrip (ds : List PageRecord) (fs : FS)
    (hne : ds ≠ []) (hdisk : 1048576 ≤ fs.freeBytes) :
    load_existing_data ((save_to_json ds fs).dataFile) = pagesJson ds
      ∧ jsonToPages (pagesJson ds) = some ds := by
  obtain ⟨x, xs, rfl⟩ : ∃ y ys, ds = y :: ys := by
    cases ds with
    | nil => exact absurd rfl hne
    | cons a b => exact ⟨a, b, rfl⟩
  refine ⟨?_, jsonToPages_pagesJson (x :: xs)⟩
  have hsave : (save_to_json (x :: xs) fs).dataFile = some (printPages (x :: xs)) := by
    simp [save_to_json, Nat.not_lt.mpr hdisk]
  rw [hsave]
  have hstrip : pyStrip (printPages (x :: xs)) ≠ [] := by
    rw [show printPages (x :: xs)
        = '[' :: (nlIndent 1 ++ (printPage 1 x
            ++ (printPagesRest xs ++ (nlIndent 0 ++ [']']))))
      by simp [printPages]]
    exact pyStrip_cons_ne_nil '[' _ (by decide)
  simp [load_existing_data, hstrip, loads_printPages]

/-- C5 counterexample: the round-trip FAILS for the empty dataset.  With
a durable file already holding one serialized page, "saving" the empty
dataset leaves that file untouched (`save_to_json` returns at once on
empty data), so loading it back yields the old one-page dataset, not the
empty one that was saved. -/
theorem claim5_counterexample :
    jsonToPages (load_existing_data ((save_to_json [] fs1).dataFile))
      ≠ some ([] : List PageRecord) := by
  have hsave : (save_to_json [] fs1).dataFile = some (printPages [pg0]) := rfl
  rw [hsave]
  have hstrip : pyStrip (printPages [pg0]) ≠ [] := by
    rw [show printPages [pg0]
        = '[' :: (nlIndent 1 ++ (printPage 1 pg0
            ++ (printPagesRest [] ++ (nlIndent 0 ++ [']']))))
      by simp [printPages]]
    exact pyStrip_cons_ne_nil '[' _ (by decide)
  have hload : load_existing_data (some (printPages [pg0])) = pagesJson [pg0] := by
    simp [load_existing_data, hstrip, loads_printPages]
  rw [hload, jsonToPages_pagesJson]
  simp

/-- Witness for C5: at the one-page dataset `[pg0]` and a file system
with ample free space, both hypotheses hold and the round-trip follows. -/
theorem claim5_witness :
    ([pg0] ≠ ([] : List PageRecord) ∧ 1048576 ≤ fsEmpty.freeBytes)
    ∧ (load_existing_data ((save_to_json [pg0] fsEmpty).dataFile) = pagesJson [pg0]
       ∧ jsonToPages (pagesJson [pg0]) = some [pg0]) :=
  ⟨⟨by decide, by decide⟩, claim5_roundtrip [pg0] fsEmpty (by decide) (by decide)⟩


/-- Character codes below the surrogate range convert back faithfully. -/
lemma toNat_ofNat_lt (n : Nat) (h : n < 55296) : (Char.ofNat n).toNat = n := by
  rw [Char.ofNat, dif_pos (Or.inl h)]
  rfl

/-- Lowercasing an ASCII capital adds 32 to the code. -/
lemma toLower_of_upper (c : Char) (h1 : 65 ≤ c.toNat) (h2 : c.toNat ≤ 90) :
    (Char.toLower c).toNat = c.toNat + 32 := by
  unfold Char.toLower
  rw [if_pos ⟨h1, h2⟩]
  exact toNat_ofNat_lt _ (by omega)

/-- Lowercasing leaves any non-capital unchanged. -/
lemma toLower_of_not_upper (c : Char) (h : ¬(65 ≤ c.toNat ∧ c.toNat ≤ 90)) :
    Char.toLower c = c := by
  unfold Char.toLower
  rw [if_neg h]

/-- `Char.isLower` as a statement about the code. -/
lemma isLower_iff (c : Char) : c.isLower = true ↔ 97 ≤ c.toNat ∧ c.toNat ≤ 122 := by
  simp only [Char.isLower, Bool.and_eq_true, decide_eq_true_eq]
  exact Iff.rfl

/-- Lowercasing preserves being a letter. -/
lemma isAlpha_toLower (c : Char) (h : c.isAlpha = true) :
    (Char.toLower c).isAlpha = true := by
  by_cases hu : 65 ≤ c.toNat ∧ c.toNat ≤ 90
  · have ht := toLower_of_upper c hu.1 hu.2
    simp only [Char.isAlpha, Bool.or_eq_true]
    right
    rw [isLower_iff, ht]
    omega
  · rw [toLower_of_not_upper c hu]
    exact h

/-- Lowercasing preserves being a scheme character. -/
lemma isSchemeChar_toLower (c : Char) (h : isSchemeChar c = true) :
    isSchemeChar (Char.toLower c) = true := by
  by_cases hu : 65 ≤ c.toNat ∧ c.toNat ≤ 90
  · have ht := toLower_of_upper c hu.1 hu.2
    simp only [isSchemeChar, Bool.or_eq_true]
    left; left; left; left
    simp only [Char.isAlpha, Bool.or_eq_true]
    right
    rw [isLower_iff, ht]
    omega
  · rw [toLower_of_not_upper c hu]
    exact h

/-- Lowercasing characters is idempotent. -/
lemma toLower_toLower (c : Char) : Char.toLower (Char.toLower c) = Char.toLower c := by
  by_cases hu : 65 ≤ c.toNat ∧ c.toNat ≤ 90
  · have ht := toLower_of_upper c hu.1 hu.2
    apply toLower_of_not_upper
    rw [ht]
    omega
  · rw [toLower_of_not_upper c hu]
    exact toLower_of_not_upper c hu

/-- Splitting at an absent character returns the whole input. -/
lemma splitOnFirst_not_mem (c : Char) (l : Str) (h : c ∉ l) :
    splitOnFirst c l = (l, none) := by
  induction l with
  | nil => rfl
  | cons x xs ih =>
    simp only [splitOnFirst]
    rw [if_neg (by rintro rfl; exact h (List.mem_cons_self _ _)),
      ih (fun hm => h (List.mem_cons_of_mem _ hm))]

/-- Splitting at the first marker occurrence recovers both sides. -/
lemma splitOnFirst_append (c : Char) (a b : Str) (h : c ∉ a) :
    splitOnFirst c (a ++ c :: b) = (a, some b) := by
  induction a with
  | nil => simp [splitOnFirst]
  | cons x xs ih =>
    simp only [List.cons_append, splitOnFirst, List.append_eq]
    rw [if_neg (by rintro rfl; exact h (List.mem_cons_self _ _)),
      ih (fun hm => h (List.mem_cons_of_mem _ hm))]

/-- The left part of a first-split is made of input characters. -/
lemma mem_splitOnFirst_fst (c x : Char) (l : Str) (h : x ∈ (splitOnFirst c l).1) :
    x ∈ l := by
  induction l with
  | nil => simp [splitOnFirst] at h
  | cons y ys ih =>
    simp only [splitOnFirst] at h
    by_cases hy : y = c
    · rw [if_pos hy] at h
      simp at h
    · rw [if_neg hy] at h
      rcases List.mem_cons.mp h with h1 | h2
      · exact h1 ▸ List.mem_cons_self _ _
      · exact List.mem_cons_of_mem _ (ih h2)

/-- The right part of a first-split is made of input characters. -/
lemma mem_splitOnFirst_snd (c x : Char) (l r : Str)
    (h2 : (splitOnFirst c l).2 = some r) (h : x ∈ r) : x ∈ l := by
  induction l with
  | nil => simp [splitOnFirst] at h2
  | cons y ys ih =>
    simp only [splitOnFirst] at h2
    by_cases hy : y = c
    · rw [if_pos hy] at h2
      cases h2
      exact List.mem_cons_of_mem _ h
    · rw [if_neg hy] at h2
      exact List.mem_cons_of_mem _ (ih h2)

/-- The marker never occurs in the left part of a first-split. -/
lemma not_mem_splitOnFirst_fst (c : Char) (l : Str) : c ∉ (splitOnFirst c l).1 := by
  induction l with
  | nil => simp [splitOnFirst]
  | cons y ys ih =>
    simp only [splitOnFirst]
    by_cases hy : y = c
    · rw [if_pos hy]
      simp
    · rw [if_neg hy]
      intro hm
      rcases List.mem_cons.mp hm with h1 | h2
      · exact hy h1.symm
      · exact ih h2

/-- The netloc part contains no netloc delimiter. -/
lemma splitNetloc_delim_free (l : Str) :
    ∀ x ∈ (splitNetloc l).1, isNetlocDelim x = false := by
  induction l with
  | nil => simp [splitNetloc]
  | cons y ys ih =>
    simp only [splitNetloc]
    by_cases hy : isNetlocDelim y = true
    · rw [if_pos hy]
      simp
    · rw [if_neg hy]
      intro x hx
      rcases List.mem_cons.mp hx with h1 | h2
      · subst h1
        exact Bool.not_eq_true _ ▸ Bool.of_not_eq_true hy
      · exact ih x h2

/-- The rest after the netloc is made of input characters. -/
lemma mem_splitNetloc_snd (l : Str) : ∀ x ∈ (splitNetloc l).2, x ∈ l := by
  induction l with
  | nil => simp [splitNetloc]
  | cons y ys ih =>
    simp only [splitNetloc]
    by_cases hy : isNetlocDelim y = true
    · rw [if_pos hy]
      intro x hx
      exact hx
    · rw [if_neg hy]
      intro x hx
      exact List.mem_cons_of_mem _ (ih x hx)

/-- The rest after the netloc is empty or starts with a delimiter. -/
lemma splitNetloc_snd_shape (l : Str) :
    (splitNetloc l).2 = [] ∨ ∃ d t, (splitNetloc l).2 = d :: t ∧ isNetlocDelim d = true := by
  induction l with
  | nil => left; rfl
  | cons y ys ih =>
    simp only [splitNetloc]
    by_cases hy : isNetlocDelim y = true
    · rw [if_pos hy]
      right
      exact ⟨y, ys, rfl, hy⟩
    · rw [if_neg hy]
      exact ih

/-- Splitting the netloc off a reassembled string recovers both parts. -/
lemma splitNetloc_append (n r : Str) (hn : ∀ x ∈ n, isNetlocDelim x = false)
    (hr : r = [] ∨ ∃ d t, r = d :: t ∧ isNetlocDelim d = true) :
    splitNetloc (n ++ r) = (n, r) := by
  induction n with
  | nil =>
    rcases hr with rfl | ⟨d, t, rfl, hd⟩
    · rfl
    · simp [splitNetloc, hd]
  | cons x xs ih =>
    simp only [List.cons_append, splitNetloc, List.append_eq]
    rw [if_neg (by simp [hn x (List.mem_cons_self _ _)]),
      ih (fun y hy => hn y (List.mem_cons_of_mem _ hy))]

/-- The remainder returned by scheme splitting is made of input characters. -/
lemma splitScheme_snd_subset (d u : Str) : ∀ x ∈ (splitScheme d u).2, x ∈ u := by
  rcases hsp : splitOnFirst ':' u with ⟨pre, rest⟩
  cases rest with
  | none => simp [splitScheme, hsp]
  | some r =>
    cases pre with
    | nil => simp [splitScheme, hsp]
    | cons c0 cs =>
      by_cases hc : (c0.isAlpha && (c0 :: cs).all isSchemeChar) = true
      · simp only [splitScheme, hsp, hc, if_true]
        intro x hx
        exact mem_splitOnFirst_snd ':' x u r (by rw [hsp]) hx
      · have hc' : (c0.isAlpha && (c0 :: cs).all isSchemeChar) = false := by
          cases h : (c0.isAlpha && (c0 :: cs).all isSchemeChar)
          · rfl
          · exact absurd h hc
        rw [show splitScheme d u = (d, u) from by
          simp only [splitScheme, hsp]
          rw [if_neg hc]]
        exact fun x hx => hx

/-- Scheme splitting on a string starting with a slash is the default. -/
lemma splitScheme_slash (d t : Str) :
    splitScheme d ('/' :: t) = (d, '/' :: t) := by
  simp only [splitScheme, splitOnFirst]
  rw [if_neg (by decide)]
  rcases h : splitOnFirst ':' t with ⟨a, b⟩
  cases b with
  | none => simp
  | some r => simp

/-- Scheme splitting of a reassembled scheme-colon-rest string. -/
lemma splitScheme_append (d s rest : Str)
    (hcolon : ':' ∉ s)
    (hhead : ∃ c t, s = c :: t ∧ c.isAlpha = true)
    (hall : ∀ x ∈ s, isSchemeChar x = true) :
    splitScheme d (s ++ ':' :: rest) = (s.map Char.toLower, rest) := by
  obtain ⟨c, t, rfl, hc⟩ := hhead
  have hsp : splitOnFirst ':' ((c :: t) ++ ':' :: rest) = (c :: t, some rest) :=
    splitOnFirst_append ':' (c :: t) rest hcolon
  simp only [splitScheme, hsp]
  rw [if_pos]
  simp only [Bool.and_eq_true, hc, true_and, List.all_eq_true]
  intro x hx
  exact hall x hx

/-- Double drop of a leading block is a single drop. -/
lemma dropWhile_dropWhile (p : Char → Bool) (m : Str) :
    (m.dropWhile p).dropWhile p = m.dropWhile p := by
  induction m with
  | nil => rfl
  | cons x xs ih =>
    by_cases hx : p x = true
    · simp [List.dropWhile_cons, hx, ih]
    · simp [List.dropWhile_cons, hx]

/-- `rstrip('/')` removes a block of slashes from the end. -/
lemma rstripSlash_exists (l : Str) :
    ∃ k, l = rstripSlash l ++ k ∧ ∀ x ∈ k, x = '/' := by
  refine ⟨(l.reverse.takeWhile (fun c => c = '/')).reverse, ?_, ?_⟩
  · simp only [rstripSlash]
    conv_lhs => rw [← List.reverse_reverse l]
    rw [← List.reverse_append, List.takeWhile_append_dropWhile]
  · intro x hx
    have := List.mem_takeWhile_imp (List.mem_reverse.mp hx)
    simpa using this

/-- `rstrip('/')` is idempotent. -/
lemma rstripSlash_idem (l : Str) : rstripSlash (rstripSlash l) = rstripSlash l := by
  simp only [rstripSlash, List.reverse_reverse]
  rw [dropWhile_dropWhile]

/-- The stripped string is made of input characters. -/
lemma mem_rstripSlash (l : Str) : ∀ x ∈ rstripSlash l, x ∈ l := by
  obtain ⟨k, hk, _⟩ := rstripSlash_exists l
  intro x hx
  rw [hk]
  exact List.mem_append_left _ hx

/-- Stripping keeps the first character or empties the string. -/
lemma rstripSlash_head (c : Char) (t : Str) :
    rstripSlash (c :: t) = [] ∨ ∃ t2, rstripSlash (c :: t) = c :: t2 := by
  obtain ⟨k, hk, _⟩ := rstripSlash_exists (c :: t)
  rcases hr : rstripSlash (c :: t) with _ | ⟨x, xs⟩
  · left; rfl
  · right
    rw [hr] at hk
    simp only [List.cons_append] at hk
    obtain ⟨hxc, -⟩ := List.cons_eq_cons.mp hk
    refine ⟨xs, ?_⟩
    rw [← hxc]

/-- The scheme produced by splitting with empty default: empty, or a
nonempty colon-free lowercase-stable run of scheme characters led by a
letter. -/
lemma splitScheme_fst_facts (u : Str) :
    (splitScheme [] u).1 = []
    ∨ (':' ∉ (splitScheme [] u).1
        ∧ (∃ c t, (splitScheme [] u).1 = c :: t ∧ c.isAlpha = true)
        ∧ (∀ x ∈ (splitScheme [] u).1, isSchemeChar x = true)
        ∧ ((splitScheme [] u).1.map Char.toLower = (splitScheme [] u).1)) := by
  rcases hsp : splitOnFirst ':' u with ⟨pre, rest⟩
  cases rest with
  | none => left; simp [splitScheme, hsp]
  | some r =>
    cases pre with
    | nil => left; simp [splitScheme, hsp]
    | cons c0 cs =>
      by_cases hc : (c0.isAlpha && (c0 :: cs).all isSchemeChar) = true
      · right
        have hfst : (splitScheme [] u).1 = (c0 :: cs).map Char.toLower := by
          simp only [splitScheme, hsp]
          rw [if_pos hc]
        rw [Bool.and_eq_true] at hc
        obtain ⟨ha, hall⟩ := hc
        have hallm : ∀ x ∈ c0 :: cs, isSchemeChar x = true :=
          fun x hx => List.all_eq_true.mp hall x hx
        rw [hfst]
        refine ⟨?_, ?_, ?_, ?_⟩
        · intro hmem
          obtain ⟨y, hy, hyeq⟩ := List.mem_map.mp hmem
          have hsc := isSchemeChar_toLower y (hallm y hy)
          rw [hyeq] at hsc
          exact absurd hsc (by decide)
        · exact ⟨Char.toLower c0, cs.map Char.toLower, by simp, isAlpha_toLower c0 ha⟩
        · intro x hx
          obtain ⟨y, hy, hyeq⟩ := List.mem_map.mp hx
          rw [← hyeq]
          exact isSchemeChar_toLower y (hallm y hy)
        · rw [List.map_map]
          exact List.map_congr_left (fun x _ => toLower_toLower x)
      · left
        simp only [splitScheme, hsp]
        rw [if_neg hc]

/-- Facts about the fragment and query splits applied to any remainder. -/
lemma frag_query_facts (m : Str) :
    '#' ∉ (splitOnFirst '?' (splitOnFirst '#' m).1).1
    ∧ '?' ∉ (splitOnFirst '?' (splitOnFirst '#' m).1).1
    ∧ '#' ∉ ((splitOnFirst '?' (splitOnFirst '#' m).1).2.getD [])
    ∧ (∀ x ∈ (splitOnFirst '?' (splitOnFirst '#' m).1).1, x ∈ m)
    ∧ (∀ x ∈ ((splitOnFirst '?' (splitOnFirst '#' m).1).2.getD []), x ∈ m) := by
  refine ⟨?_, not_mem_splitOnFirst_fst '?' _, ?_, ?_, ?_⟩
  · intro hm
    exact not_mem_splitOnFirst_fst '#' m (mem_splitOnFirst_fst '?' '#' _ hm)
  · rcases hq : (splitOnFirst '?' (splitOnFirst '#' m).1).2 with _ | w
    · simp
    · simp only [Option.getD_some]
      intro hm
      exact not_mem_splitOnFirst_fst '#' m (mem_splitOnFirst_snd '?' '#' _ w hq hm)
  · intro x hx
    exact mem_splitOnFirst_fst '#' x m (mem_splitOnFirst_fst '?' x _ hx)
  · intro x hx
    rcases hq : (splitOnFirst '?' (splitOnFirst '#' m).1).2 with _ | w
    · rw [hq] at hx
      simp at hx
    · rw [hq] at hx
      simp only [Option.getD_some] at hx
      exact mem_splitOnFirst_fst '#' x m (mem_splitOnFirst_snd '?' x _ w hq hx)

/-- Path and query computed from any remainder inherit its characters and
avoid their markers. -/
lemma path_query_of_remainder (u M : Str) (hM : ∀ x ∈ M, x ∈ u) :
    '#' ∉ (splitOnFirst '?' (splitOnFirst '#' M).1).1
    ∧ '?' ∉ (splitOnFirst '?' (splitOnFirst '#' M).1).1
    ∧ '#' ∉ ((splitOnFirst '?' (splitOnFirst '#' M).1).2.getD [])
    ∧ (∀ x ∈ (splitOnFirst '?' (splitOnFirst '#' M).1).1, x ∈ u)
    ∧ (∀ x ∈ ((splitOnFirst '?' (splitOnFirst '#' M).1).2.getD []), x ∈ u) := by
  obtain ⟨f1, f2, f3, f4, f5⟩ := frag_query_facts M
  exact ⟨f1, f2, f3, fun x hx => hM x (f4 x hx), fun x hx => hM x (f5 x hx)⟩

/-- A remainder that is empty or starts with a netloc delimiter yields a
path that is empty or starts with a slash. -/
lemma path_shape_of_delim (M : Str)
    (hshape : M = [] ∨ ∃ d t, M = d :: t ∧ isNetlocDelim d = true) :
    (splitOnFirst '?' (splitOnFirst '#' M).1).1 = []
    ∨ ∃ t, (splitOnFirst '?' (splitOnFirst '#' M).1).1 = '/' :: t := by
  rcases hshape with rfl | ⟨d, t, rfl, hd⟩
  · left; rfl
  · have hd' : (d = '/' ∨ d = '?') ∨ d = '#' := by
      simpa [isNetlocDelim] using hd
    rcases hd' with (rfl | rfl) | rfl
    · right
      exact ⟨(splitOnFirst '?' ((splitOnFirst '#' t).1)).1, by simp [splitOnFirst]⟩
    · left
      simp [splitOnFirst]
    · left
      simp [splitOnFirst]

/-- Everything `urlsplit` guarantees about a successful parse: the scheme
is the scheme split, the netloc is delimiter-free and bracket-balanced, a
nonempty netloc forces an absolute or empty path, markers are absent from
path and query, and both are made of input characters. -/
lemma pyUrlsplit_ok_facts (u : Str) (r : SplitResult)
    (h : pyUrlsplit [] u = .ok r) :
    r.scheme = (splitScheme [] u).1
    ∧ (∀ x ∈ r.netloc, isNetlocDelim x = false)
    ∧ ((r.netloc.contains '[' && !r.netloc.contains ']')
        || (r.netloc.contains ']' && !r.netloc.contains '[')) = false
    ∧ (r.netloc ≠ [] → r.path = [] ∨ ∃ t, r.path = '/' :: t)
    ∧ '#' ∉ r.path ∧ '?' ∉ r.path ∧ '#' ∉ r.query
    ∧ (∀ x ∈ r.path, x ∈ u) ∧ (∀ x ∈ r.query, x ∈ u) := by
  simp only [pyUrlsplit] at h
  split at h
  · exact absurd h (by simp)
  · rename_i hbr
    split at h
    · rename_i rr heq
      rw [heq] at hbr
      rw [Except.ok.injEq] at h
      subst h
      have hMu : ∀ x ∈ (splitNetloc rr).2, x ∈ u := by
        intro x hx
        apply splitScheme_snd_subset [] u x
        rw [heq]
        exact List.mem_cons_of_mem _ (List.mem_cons_of_mem _ (mem_splitNetloc_snd rr x hx))
      obtain ⟨f1, f2, f3, f4, f5⟩ := path_query_of_remainder u (splitNetloc rr).2 hMu
      exact ⟨rfl, splitNetloc_delim_free rr, Bool.eq_false_iff.mpr hbr,
        fun _ => path_shape_of_delim _ (splitNetloc_snd_shape rr), f1, f2, f3, f4, f5⟩
    · rename_i hnm
      rw [Except.ok.injEq] at h
      subst h
      obtain ⟨f1, f2, f3, f4, f5⟩ :=
        path_query_of_remainder u (splitScheme [] u).2 (splitScheme_snd_subset [] u)
      exact ⟨rfl, by simp, by simp, fun hc => absurd rfl hc, f1, f2, f3, f4, f5⟩

/-- On a semicolon-free input, `urlparse` adds no params to `urlsplit`. -/
lemma pyUrlparse_ok_noparams (u : Str) (r : SplitResult)
    (hsplit : pyUrlsplit [] u = .ok r) (hsemi : ';' ∉ u)
    (hsub : ∀ x ∈ r.path, x ∈ u) :
    pyUrlparse [] u = .ok ⟨r.scheme, r.netloc, r.path, [], r.query, r.fragment⟩ := by
  have hcont : r.path.contains ';' = false := by
    by_cases hcp : ';' ∈ r.path
    · exact absurd (hsub ';' hcp) hsemi
    · simpa using hcp
  simp only [pyUrlparse, hsplit]
  rw [hcont, Bool.and_false]
  simp

/-- Reparsing a URL reassembled by `urlunsplit` from well-shaped
components recovers exactly those components, with no parameter split. -/
lemma pyUrlparse_unsplit (s n P q : Str)
    (hs : s = [] ∨ (':' ∉ s ∧ (∃ c t, s = c :: t ∧ c.isAlpha = true)
        ∧ (∀ x ∈ s, isSchemeChar x = true) ∧ s.map Char.toLower = s))
    (hn : n ≠ []) (hnfree : ∀ x ∈ n, isNetlocDelim x = false)
    (hbr : ((n.contains '[' && !n.contains ']')
        || (n.contains ']' && !n.contains '[')) = false)
    (hP : P = [] ∨ ∃ t, P = '/' :: t)
    (hPq : '?' ∉ P) (hPh : '#' ∉ P) (hPs : ';' ∉ P)
    (hqh : '#' ∉ q) :
    pyUrlparse [] (pyUrlunsplit s n P q []) = .ok ⟨s, n, P, [], q, []⟩ := by
  have hv : pyUrlunsplit s n P q []
      = (if s ≠ [] then
          s ++ ':' :: ('/' :: '/' :: (n ++ (P ++ (if q ≠ [] then '?' :: q else []))))
        else '/' :: '/' :: (n ++ (P ++ (if q ≠ [] then '?' :: q else [])))) := by
    by_cases hse : s = [] <;> by_cases hqe : q = [] <;>
      rcases hP with rfl | ⟨t, rfl⟩ <;>
      simp [pyUrlunsplit, hse, hqe, hn, show strL ("//") = ['/', '/'] from rfl,
        show strL ("/") = ['/'] from rfl, List.append_assoc]
  have hshape : P ++ (if q ≠ [] then '?' :: q else []) = []
      ∨ ∃ d t2, P ++ (if q ≠ [] then '?' :: q else []) = d :: t2
          ∧ isNetlocDelim d = true := by
    rcases hP with rfl | ⟨t, rfl⟩
    · by_cases hqe : q = []
      · left
        simp [hqe]
      · right
        exact ⟨'?', q, by simp [hqe], by decide⟩
    · right
      exact ⟨'/', t ++ (if q ≠ [] then '?' :: q else []), by simp, by decide⟩
  have hsn : splitNetloc (n ++ (P ++ (if q ≠ [] then '?' :: q else [])))
      = (n, P ++ (if q ≠ [] then '?' :: q else [])) :=
    splitNetloc_append n _ hnfree hshape
  have hhash : '#' ∉ P ++ (if q ≠ [] then '?' :: q else []) := by
    intro hm
    rcases List.mem_append.mp hm with h1 | h2
    · exact hPh h1
    · by_cases hqe : q = []
      · subst hqe
        simp at h2
      · rw [if_pos hqe] at h2
        rcases List.mem_cons.mp h2 with h3 | h4
        · exact absurd h3 (by decide)
        · exact hqh h4
  have hfr : splitOnFirst '#' (P ++ (if q ≠ [] then '?' :: q else []))
      = (P ++ (if q ≠ [] then '?' :: q else []), none) :=
    splitOnFirst_not_mem _ _ hhash
  have hq1 : (splitOnFirst '?' (P ++ (if q ≠ [] then '?' :: q else []))).1 = P
      ∧ (splitOnFirst '?' (P ++ (if q ≠ [] then '?' :: q else []))).2.getD [] = q := by
    by_cases hqe : q = []
    · subst hqe
      rw [show P ++ (if ([] : Str) ≠ [] then '?' :: ([] : Str) else []) = P by simp]
      rw [splitOnFirst_not_mem _ _ hPq]
      exact ⟨rfl, rfl⟩
    · rw [show P ++ (if q ≠ [] then '?' :: q else []) = P ++ '?' :: q by simp [hqe]]
      rw [splitOnFirst_append _ _ _ hPq]
      exact ⟨rfl, rfl⟩
  have hcontP : P.contains ';' = false := by
    by_cases hcp : ';' ∈ P
    · exact absurd hcp hPs
    · simpa using hcp
  rw [hv]
  by_cases hse : s = []
  · subst hse
    rw [if_neg (by simp)]
    have hsv : pyUrlsplit []
        ('/' :: '/' :: (n ++ (P ++ (if q ≠ [] then '?' :: q else []))))
        = .ok ⟨[], n, P, q, []⟩ := by
      simp only [pyUrlsplit, splitScheme_slash]
      simp only [hsn]
      rw [if_neg (Bool.eq_false_iff.mp hbr)]
      simp only [hfr, hq1.1, hq1.2]
      rfl
    simp only [pyUrlparse, hsv]
    rw [hcontP, Bool.and_false]
    simp
  · rcases hs with rfl | ⟨hcolon, hhead, hall, hlow⟩
    · exact absurd rfl hse
    rw [if_pos hse]
    have hss : splitScheme []
        (s ++ ':' :: ('/' :: '/' :: (n ++ (P ++ (if q ≠ [] then '?' :: q else [])))))
        = (s, '/' :: '/' :: (n ++ (P ++ (if q ≠ [] then '?' :: q else [])))) := by
      rw [splitScheme_append [] s _ hcolon hhead hall, hlow]
    have hsv : pyUrlsplit []
        (s ++ ':' :: ('/' :: '/' :: (n ++ (P ++ (if q ≠ [] then '?' :: q else [])))))
        = .ok ⟨s, n, P, q, []⟩ := by
      simp only [pyUrlsplit, hss]
      simp only [hsn]
      rw [if_neg (Bool.eq_false_iff.mp hbr)]
      simp only [hfr, hq1.1, hq1.2]
      rfl
    simp only [pyUrlparse, hsv]
    rw [hcontP, Bool.and_false]
    simp

/-- C6 counterexample: normalization is NOT idempotent on every
syntactically parseable URL.  For `http://h/a;/` the first pass strips
the trailing slash, exposing a trailing `;` in the last path segment; the
second pass then splits it as an (empty) params marker and drops it, so
normalizing twice differs from normalizing once. -/
theorem claim6_counterexample :
    normalize_url (strL ("http://h/a;/")) = .ok (strL ("http://h/a;"))
    ∧ normalize_url (strL ("http://h/a;")) = .ok (strL ("http://h/a"))
    ∧ strL ("http://h/a;") ≠ strL ("http://h/a") :=
  ⟨by decide, by decide, by decide⟩

/-- C6 (corrected): `normalize_url` is idempotent on every syntactically
parseable URL that contains no semicolon and has a nonempty authority:
normalizing the normalized form changes nothing.  The two restrictions
are forced by the code: a `;` can migrate into params-splitting position
after the first pass (see the counterexample), and an empty authority
makes `urlunsplit` re-glue `//`-prefixed paths ambiguously. -/
theorem claim6_normalize_idempotent (u : Str) (p : ParseResult)
    (hsemi : ';' ∉ u)
    (hp : pyUrlparse [] u = .ok p)
    (hnet : p.netloc ≠ []) :
    (normalize_url u).bind normalize_url = normalize_url u := by
  rcases hsplit : pyUrlsplit [] u with e | r
  · simp only [pyUrlparse, hsplit] at hp
    exact absurd hp (by simp)
  · obtain ⟨hsch, hnfree, hbr, hshape, hPh, hPq, hqh, hsubP, hsubQ⟩ :=
      pyUrlsplit_ok_facts u r hsplit
    have hparse := pyUrlparse_ok_noparams u r hsplit hsemi hsubP
    rw [hparse, Except.ok.injEq] at hp
    subst hp
    have hnet' : r.netloc ≠ [] := hnet
    have hnorm1 : normalize_url u
        = .ok (pyUrlunsplit r.scheme r.netloc (rstripSlash r.path) r.query []) := by
      simp only [normalize_url, hparse]
      simp [pyUrlunparse]
    have hsfacts := splitScheme_fst_facts u
    rw [← hsch] at hsfacts
    have hP2 : rstripSlash r.path = [] ∨ ∃ t, rstripSlash r.path = '/' :: t := by
      rcases hshape hnet' with he | ⟨t, hpt⟩
      · left
        rw [he]
        rfl
      · rw [hpt]
        exact rstripSlash_head '/' t
    have hsub2 : ∀ x ∈ rstripSlash r.path, x ∈ r.path := mem_rstripSlash r.path
    have hre := pyUrlparse_unsplit r.scheme r.netloc (rstripSlash r.path) r.query
      hsfacts hnet' hnfree hbr hP2
      (fun hm => hPq (hsub2 '?' hm))
      (fun hm => hPh (hsub2 '#' hm))
      (fun hm => hsemi (hsubP ';' (hsub2 ';' hm)))
      hqh
    have hnorm2 : normalize_url
        (pyUrlunsplit r.scheme r.netloc (rstripSlash r.path) r.query [])
        = .ok (pyUrlunsplit r.scheme r.netloc (rstripSlash r.path) r.query []) := by
      simp only [normalize_url, hre]
      simp [pyUrlunparse, rstripSlash_idem]
    rw [hnorm1]
    simp only [Except.bind]
    exact hnorm2

/-- Witness for C6 at `https://example.org/a/`: semicolon-free, parseable
with authority `example.org`, and normalization composed with itself
agrees with a single normalization. -/
theorem claim6_witness :
    (';' ∉ strL ("https://example.org/a/")
      ∧ pyUrlparse [] (strL ("https://example.org/a/"))
          = .ok ⟨strL ("https"), strL ("example.org"), strL ("/a/"), [], [], []⟩
      ∧ (⟨strL ("https"), strL ("example.org"), strL ("/a/"), [], [], []⟩
          : ParseResult).netloc ≠ [])
    ∧ (normalize_url (strL ("https://example.org/a/"))).bind normalize_url
        = normalize_url (strL ("https://example.org/a/")) :=
  ⟨⟨by decide, by decide, by decide⟩,
    claim6_normalize_idempotent (strL ("https://example.org/a/"))
      ⟨strL ("https"), strL ("example.org"), strL ("/a/"), [], [], []⟩
      (by decide) (by decide) (by decide)⟩


/-- A first-split with no marker found returns no marker occurrence. -/
lemma splitOnFirst_none_not_mem (c : Char) (l : Str)
    (h : (splitOnFirst c l).2 = none) : c ∉ l := by
  induction l with
  | nil => simp
  | cons x xs ih =>
    simp only [splitOnFirst] at h
    by_cases hx : x = c
    · rw [if_pos hx] at h
      simp at h
    · rw [if_neg hx] at h
      intro hm
      rcases List.mem_cons.mp hm with h1 | h2
      · exact hx h1.symm
      · exact ih h h2

/-- A first-split with no marker found keeps the whole input on the left. -/
lemma splitOnFirst_none_fst (c : Char) (l : Str)
    (h : (splitOnFirst c l).2 = none) : (splitOnFirst c l).1 = l := by
  rw [splitOnFirst_not_mem c l (splitOnFirst_none_not_mem c l h)]

end WSM
